import Mathlib

/-! go-websocket-server: connection hub

A shallow embedding of `internal/server/server.go`, `internal/auth/auth.go` and
`WebSocketHandler` of `internal/handler/handler.go`.

* A connection handle (`*websocket.Conn`) is a natural number: only its identity matters.
* A Go map is an association list with at most one entry per key; `GoMap.index` is the Go
  expression `m[k]`, which yields the zero value of the element type for a missing key.
* Every region guarded by `s.mu` is one atomic function on the registry (`Server`).
* Calls that leave the process (presence store, message store, log, socket writes, the JSON
  encoder) are recorded, in program order, as a list of `Effect`s.  The goroutine spawned per
  selected connection in `broadcast` is recorded at the point where it is spawned.
* Values that come from outside (`uuid.NewString`, `time.Now().Unix`, `json.Marshal`, the
  results of `Save`, `Set` and `Write`, `jwt.Parse`) are fields of `Env` or parameters.
* The inbound side of a connection is the list of outcomes of its successive
  `dec.Decode(&msg)` calls; `Decoder` derives these outcomes from the frames a client sent.
-/

namespace WsServer

/-! ## Go maps -/

/-- Go map as an association list. -/
abbrev GoMap (κ ν : Type) := List (κ × ν)

namespace GoMap

variable {κ ν : Type} [DecidableEq κ]

/-- Keys of the map, in iteration order (`for k := range m`). -/
def keys (m : GoMap κ ν) : List κ := m.map Prod.fst

/-- Entry of the map at `k`, if there is one (`v, ok := m[k]`). -/
def entry (m : GoMap κ ν) (k : κ) : Option ν :=
  match m with
  | [] => none
  | (k1, v) :: rest => if k1 = k then some v else entry rest k

/-- Go expression `m[k]`: the entry at `k`, or the zero value when there is none. -/
def index (m : GoMap κ ν) (k : κ) (zero : ν) : ν :=
  match entry m k with
  | some v => v
  | none => zero

/-- Go statement `delete(m, k)`. -/
def delete (m : GoMap κ ν) (k : κ) : GoMap κ ν := m.filter (fun e => decide (e.1 ≠ k))

/-- Go statement `m[k] = v`. -/
def set (m : GoMap κ ν) (k : κ) (v : ν) : GoMap κ ν := (k, v) :: delete m k

/-- Well-formed maps hold no key twice. -/
def WF (m : GoMap κ ν) : Prop := (keys m).Nodup

end GoMap

/-! ## `internal/model` -/

/-- The struct `model.Message`. -/
structure Message where
  ID : String
  UserID : String
  RoomID : String
  Content : String
  Timestamp : Int
deriving DecidableEq, Repr

/-- The struct `model.Presence`. -/
structure Presence where
  UserID : String
  Online : Bool
  LastSeen : Int
deriving DecidableEq, Repr

/-! ## `internal/server` -/

/-- Connection handle `*websocket.Conn`. -/
abbrev Conn := Nat

/-- Calls leaving the process, in program order. -/
inductive Effect where
  | presenceSet (p : Presence)
  | save (msg : Message)
  | marshal (msg : Message)
  | write (ws : Conn) (b : String)
  | logError (what : String)
  | logWarn (what : String) (msg : Message)
deriving DecidableEq, Repr

/-- Everything the server obtains from outside. `uuidNewString k` and `timeNowUnix k` are the
results of the `k`-th call of `uuid.NewString()` and `time.Now().Unix()`; a result of `none`
stands for a nil error. -/
structure Env where
  uuidNewString : Nat → String
  timeNowUnix : Nat → Int
  jsonMarshal : Message → Except String String
  wsWrite : Conn → String → Option String
  storeSave : Message → Option String
  presenceSetErr : Presence → Option String

/-- The registry fields of the struct `Server`. -/
structure Server where
  conns : GoMap Conn Bool
  connRooms : GoMap Conn String
deriving DecidableEq, Repr

/-- The registry together with the number of identifiers drawn and clock readings taken. -/
structure Sys where
  srv : Server
  uuids : Nat
  clock : Nat
deriving DecidableEq, Repr

/-- Registry built by `New`: both maps empty. -/
def New : Server := ⟨[], []⟩

/-- Locked region of `HandleWS`: `s.conns[ws] = true`. -/
def register (s : Server) (ws : Conn) : Server :=
  { s with conns := s.conns.set ws true }

/-- Locked region of `readLoop`: `s.connRooms[ws] = msg.RoomID`. -/
def bind (s : Server) (ws : Conn) (roomID : String) : Server :=
  { s with connRooms := s.connRooms.set ws roomID }

/-- The method `removeConn`. -/
def removeConn (s : Server) (ws : Conn) : Server :=
  { conns := s.conns.delete ws, connRooms := s.connRooms.delete ws }

/-- Body of the goroutine spawned for one selected connection: `ws.Write(b)`, and a log line
when the write fails. -/
def writeTask (env : Env) (ws : Conn) (b : String) : List Effect :=
  match env.wsWrite ws b with
  | some _ => [Effect.write ws b, Effect.logError "write error"]
  | none => [Effect.write ws b]

/-- The loop `for ws := range s.conns` of `broadcast`, over the keys still to visit. -/
def broadcastLoop (env : Env) (s : Server) (msg : Message) (b : String) :
    List Conn → List Effect
  | [] => []
  | ws :: rest =>
    let roomID := s.connRooms.index ws ""
    if roomID = msg.RoomID then
      writeTask env ws b ++ broadcastLoop env s msg b rest
    else
      broadcastLoop env s msg b rest

/-- The method `broadcast`. -/
def broadcast (env : Env) (s : Server) (msg : Message) : List Effect :=
  match env.jsonMarshal msg with
  | .error _ => [Effect.marshal msg, Effect.logError "marshal error"]
  | .ok b => Effect.marshal msg :: broadcastLoop env s msg b s.conns.keys

/-- Outcome of `dec.Decode(&msg)`. -/
inductive Decoded where
  | eof
  | err (e : String)
  | msg (m : Message)
deriving DecidableEq, Repr

/-- Control state of a connection's `readLoop`. -/
inductive LoopState where
  | reading
  | closed
deriving DecidableEq, Repr

/-- State, effects and control state after a piece of a connection's run. -/
structure Run where
  sys : Sys
  effects : List Effect
  state : LoopState
deriving DecidableEq, Repr

/-- One iteration of the `for` loop of `readLoop`, on the outcome `d` of `Decode`. The source
drops the errors returned by `presence.Set` and `store.Save`. -/
def readLoopIter (env : Env) (sys : Sys) (ws : Conn) (userID : String) (d : Decoded) : Run :=
  match d with
  | .eof =>
    let p : Presence :=
      { UserID := userID, Online := false, LastSeen := env.timeNowUnix sys.clock }
    let _setErr := env.presenceSetErr p
    { sys := { sys with srv := removeConn sys.srv ws, clock := sys.clock + 1 }
      effects := [Effect.presenceSet p]
      state := .closed }
  | .err _ => { sys := sys, effects := [Effect.logError "read error"], state := .reading }
  | .msg m =>
    if m.Content = "" ∨ m.UserID = "" ∨ m.RoomID = "" then
      { sys := sys, effects := [Effect.logWarn "invalid message" m], state := .reading }
    else
      let m1 : Message := { m with ID := env.uuidNewString sys.uuids }
      let m2 : Message := { m1 with Timestamp := env.timeNowUnix sys.clock }
      let _saveErr := env.storeSave m2
      let srv := bind sys.srv ws m2.RoomID
      { sys := { srv := srv, uuids := sys.uuids + 1, clock := sys.clock + 1 }
        effects := Effect.save m2 :: broadcast env srv m2
        state := .reading }

/-- The method `readLoop` on the successive outcomes of `Decode`. The loop returns at the first
end-of-stream; when the outcomes run out before that, it is still reading. -/
def readLoop (env : Env) (sys : Sys) (ws : Conn) (userID : String) : List Decoded → Run
  | [] => { sys := sys, effects := [], state := .reading }
  | d :: ds =>
    let r := readLoopIter env sys ws userID d
    match r.state with
    | .closed => r
    | .reading =>
      let r1 := readLoop env r.sys ws userID ds
      { sys := r1.sys, effects := r.effects ++ r1.effects, state := r1.state }

/-- The method `HandleWS`; `userID` is the `X-User-ID` header of the connection's request. -/
def HandleWS (env : Env) (sys : Sys) (ws : Conn) (userID : String) (frames : List Decoded) :
    Run :=
  let srv := register sys.srv ws
  let p : Presence := { UserID := userID, Online := true, LastSeen := env.timeNowUnix sys.clock }
  let _setErr := env.presenceSetErr p
  let r := readLoop env { sys with srv := srv, clock := sys.clock + 1 } ws userID frames
  { sys := r.sys, effects := Effect.presenceSet p :: r.effects, state := r.state }

/-- Connections written to, in order. -/
def writeTargets : List Effect → List Conn
  | [] => []
  | Effect.write ws _ :: rest => ws :: writeTargets rest
  | _ :: rest => writeTargets rest

/-- Byte strings written, in order. -/
def writePayloads : List Effect → List String
  | [] => []
  | Effect.write _ b :: rest => b :: writePayloads rest
  | _ :: rest => writePayloads rest

/-- Presence records passed to `presence.Set`, in order. -/
def presenceCalls : List Effect → List Presence
  | [] => []
  | Effect.presenceSet p :: rest => p :: presenceCalls rest
  | _ :: rest => presenceCalls rest

/-- Messages passed to `store.Save`, in order. -/
def saveCalls : List Effect → List Message
  | [] => []
  | Effect.save m :: rest => m :: saveCalls rest
  | _ :: rest => saveCalls rest

/-- Messages handed to `broadcast`, in order (each call starts with `json.Marshal`). -/
def broadcastCalls : List Effect → List Message
  | [] => []
  | Effect.marshal m :: rest => m :: broadcastCalls rest
  | _ :: rest => broadcastCalls rest

/-- Registry operation: one locked region run on behalf of a connection. -/
inductive RegistryOp where
  | register (ws : Conn)
  | bind (ws : Conn) (roomID : String)
  | unregister (ws : Conn)
deriving DecidableEq, Repr

/-- Effect of one registry operation. -/
def applyOp (s : Server) : RegistryOp → Server
  | .register ws => register s ws
  | .bind ws roomID => bind s ws roomID
  | .unregister ws => removeConn s ws

/-- Effect of a sequence of registry operations, first to last. -/
def runOps (s : Server) (ops : List RegistryOp) : Server := ops.foldl applyOp s

/-! ## `internal/auth` -/

/-- Value stored under a key of `jwt.MapClaims`. -/
inductive ClaimValue where
  | str (s : String)
  | num (n : Int)
  | bool (b : Bool)
  | null
  | composite
deriving DecidableEq, Repr

/-- Dynamic type of `token.Claims`. -/
inductive Claims where
  | mapClaims (m : GoMap String ClaimValue)
  | other
deriving DecidableEq, Repr

/-- The fields of `jwt.Token` that `ValidateToken` reads. -/
structure Token where
  Valid : Bool
  Claims : Claims
deriving DecidableEq, Repr

/-- Result `(token, err)` of `jwt.Parse`. When `err` is not nil the source does not look at
the token. -/
inductive Parsed where
  | failed (err : String)
  | token (t : Token)
deriving DecidableEq, Repr

/-- The struct `Auth`. -/
structure Auth where
  Secret : String
  Expiry : Int
deriving DecidableEq, Repr

/-- The method `ValidateToken`; `jwtParse secret tokenStr` is `jwt.Parse` with the key function
that returns `secret`. The second component is the returned error, `none` for nil. Each of the
three early returns hands back the variable `err` assigned by `jwt.Parse`. -/
def ValidateToken (jwtParse : String → String → Parsed) (a : Auth) (tokenStr : String) :
    String × Option String :=
  match jwtParse a.Secret tokenStr with
  | .failed err => ("", some err)
  | .token token =>
    if token.Valid = false then ("", none)
    else
      match token.Claims with
      | .other => ("", none)
      | .mapClaims claims =>
        match claims.entry "sub" with
        | some (.str userID) => (userID, none)
        | _ => ("", none)

/-! ## `internal/handler` -/

/-- Go function `strings.HasPrefix`. -/
def HasPrefix (s pre : String) : Bool := pre.data.isPrefixOf s.data

/-- Go function `strings.TrimPrefix`. -/
def TrimPrefix (s pre : String) : String :=
  if HasPrefix s pre then String.mk (s.data.drop pre.data.length) else s

/-- Go constant `http.StatusUnauthorized`. -/
def StatusUnauthorized : Nat := 401

/-- What `WebSocketHandler` reads of a request: the headers `Authorization` and `X-User-ID`
(empty when absent), whether the WebSocket handshake of the request succeeds, and, when it
does, the connection it yields and the outcomes of `Decode` on it. -/
structure Request where
  Authorization : String
  XUserID : String
  handshake : Bool
  ws : Conn
  frames : List Decoded
deriving DecidableEq, Repr

/-- How a request was answered: by `http.Error`, by a failed WebSocket handshake, or by a run
of `HandleWS`. -/
inductive Response where
  | httpError (body : String) (code : Nat)
  | handshakeFailed
  | handleWS (run : Run)
deriving DecidableEq, Repr

/-- Answer to a request, with the state and the effects it leaves. -/
structure Handled where
  response : Response
  sys : Sys
  effects : List Effect
deriving DecidableEq, Repr

/-- The handler returned by `WebSocketHandler(s, a)`. -/
def WebSocketHandler (jwtParse : String → String → Parsed) (a : Auth) (env : Env) (sys : Sys)
    (r : Request) : Handled :=
  let authHeader := r.Authorization
  let token := if HasPrefix authHeader "Bearer " then TrimPrefix authHeader "Bearer " else ""
  if token = "" then
    { response := .httpError "missing token" StatusUnauthorized, sys := sys, effects := [] }
  else
    match (ValidateToken jwtParse a token).2 with
    | some _ =>
      { response := .httpError "invalid token" StatusUnauthorized, sys := sys, effects := [] }
    | none =>
      if r.handshake then
        let run := HandleWS env sys r.ws r.XUserID r.frames
        { response := .handleWS run, sys := run.sys, effects := run.effects }
      else
        { response := .handshakeFailed, sys := sys, effects := [] }

/-- Sample `jwt.Parse`: `tok-alice` carries the subject `alice`, `tok-nosub` is validly signed
and carries only an expiry, `tok-numsub` is validly signed and carries a numeric subject, and
every other string fails to parse. -/
def sampleParse (_secret : String) (tokenStr : String) : Parsed :=
  if tokenStr = "tok-alice" then
    .token { Valid := true
             Claims := .mapClaims [("sub", .str "alice"), ("exp", .num 4102444800)] }
  else if tokenStr = "tok-nosub" then
    .token { Valid := true, Claims := .mapClaims [("exp", .num 4102444800)] }
  else if tokenStr = "tok-numsub" then
    .token { Valid := true
             Claims := .mapClaims [("sub", .num 42), ("exp", .num 4102444800)] }
  else
    .failed "token is malformed"

/-- Sample `Auth`, with the fallback secret of `main`. -/
def sampleAuth : Auth := { Secret := "changeme", Expiry := 86400 }

/-- Sample request with the given `Authorization` header. -/
def sampleRequest (authorization : String) : Request :=
  { Authorization := authorization, XUserID := "alice", handshake := true, ws := 9,
    frames := [.eof] }

/-! ## The inbound stream and `json.Decoder`

`readLoop` builds one decoder on the connection (`json.NewDecoder(ws)`) and calls `Decode` on
it in every iteration. In Go's `encoding/json`, `Decode` first returns the error stored in the
decoder, if there is one; a syntax error, like a value cut short by the end of the stream, is
stored in the decoder, whereas the error of unmarshalling a complete JSON value is not. -/

/-- What a client sent as one frame: a complete JSON value that unmarshals into the message
`m`, a complete JSON value that does not unmarshal into a `Message`, or bytes that are not a
complete JSON value. -/
inductive Frame where
  | value (m : Message)
  | mismatch (e : String)
  | malformed (e : String)
deriving DecidableEq, Repr

/-- The decoder of a connection: the frames not yet read, after which the stream ends, and
the stored error (the field `err` of `json.Decoder`). -/
structure Decoder where
  input : List Frame
  err : Option String
deriving DecidableEq, Repr

/-- The method `Decode` of `json.Decoder`: its outcome and the decoder afterwards. At the end
of the stream the outcome is `io.EOF`, at every call. -/
def Decoder.Decode (dec : Decoder) : Decoded × Decoder :=
  match dec.err with
  | some e => (.err e, dec)
  | none =>
    match dec.input with
    | [] => (.eof, dec)
    | .value m :: rest => (.msg m, { input := rest, err := none })
    | .mismatch e :: rest => (.err e, { input := rest, err := none })
    | .malformed e :: rest => (.err e, { input := rest, err := some e })

/-- Outcomes of the first `n` calls of `Decode`. -/
def decodeOutcomes : Nat → Decoder → List Decoded
  | 0, _ => []
  | n + 1, dec => dec.Decode.1 :: decodeOutcomes n dec.Decode.2

/-- Run of `HandleWS` for a connection whose inbound stream is `frames` followed by the end of
the stream, observed until `readLoop` has returned or has called `Decode` `n` times. -/
def runConnection (env : Env) (sys : Sys) (ws : Conn) (userID : String) (frames : List Frame)
    (n : Nat) : Run :=
  HandleWS env sys ws userID (decodeOutcomes n { input := frames, err := none })

/-! ## Interleaved runs of several connections -/

/-- One step of the server on behalf of a connection: `connect` is `HandleWS` up to the point
where `readLoop` waits for its first frame, `frame` is one iteration of that connection's
`readLoop` on the outcome `d` of `Decode`. -/
inductive Action where
  | connect (ws : Conn) (userID : String)
  | frame (ws : Conn) (userID : String) (d : Decoded)
deriving DecidableEq, Repr

/-- Outcome of one action. -/
def act (env : Env) (sys : Sys) : Action → Run
  | .connect ws userID => HandleWS env sys ws userID []
  | .frame ws userID d => readLoopIter env sys ws userID d

/-- State after a sequence of actions of any connections, first to last. -/
def runActions (env : Env) (sys : Sys) : List Action → Sys
  | [] => sys
  | a :: rest => runActions env (act env sys a).sys rest

/-- Effects of a sequence of actions of any connections, in order. -/
def actionEffects (env : Env) (sys : Sys) : List Action → List Effect
  | [] => []
  | a :: rest => (act env sys a).effects ++ actionEffects env (act env sys a).sys rest

/-! ## `internal/model`: the room store

The table `rooms (id TEXT PRIMARY KEY, name TEXT, members TEXT)` is the list of its rows;
statements on it succeed, except that `QueryRow` on an absent id yields `sql.ErrNoRows`. -/

/-- The struct `model.Room`. -/
structure Room where
  ID : String
  Name : String
  Members : List String
deriving DecidableEq, Repr

/-- Row of the table `rooms`. -/
structure RoomRow where
  id : String
  name : String
  members : String
deriving DecidableEq, Repr

/-- Pieces of a character sequence between the occurrences of `sep`. -/
def splitChars (sep : Char) : List Char → List (List Char)
  | [] => [[]]
  | c :: cs =>
    if c = sep then [] :: splitChars sep cs
    else
      match splitChars sep cs with
      | [] => [[c]]
      | w :: ws => (c :: w) :: ws

/-- Go function `strings.Split` for a separator of one character. -/
def Split (s : String) (sep : Char) : List String := (splitChars sep s.data).map String.mk

/-- Go function `strings.Join`. -/
def Join : List String → String → String
  | [], _ => ""
  | [a], _ => a
  | a :: b :: rest, sep => a ++ sep ++ Join (b :: rest) sep

namespace SQLiteRoomStore

/-- Result of `SELECT id, name, members FROM rooms WHERE id = ?` through `QueryRowContext`:
the first matching row. -/
def queryRow (db : List RoomRow) (id : String) : Option RoomRow :=
  match db with
  | [] => none
  | row :: rest => if row.id = id then some row else queryRow rest id

/-- Effect of `UPDATE rooms SET members = ? WHERE id = ?`. -/
def updateMembers (db : List RoomRow) (members : String) (id : String) : List RoomRow :=
  db.map (fun row => if row.id = id then { row with members := members } else row)

/-- The method `SQLiteRoomStore.Get`. -/
def Get (db : List RoomRow) (id : String) : Except String Room :=
  match queryRow db id with
  | none => .error "sql: no rows in result set"
  | some row =>
    .ok { ID := row.id, Name := row.name
          Members := if row.members ≠ "" then Split row.members ',' else [] }

/-- The method `SQLiteRoomStore.AddMember`: the table afterwards and the returned error
(`none` for nil). The loop over `r.Members` returns nil at the first member equal to
`userID`. -/
def AddMember (db : List RoomRow) (roomID userID : String) : List RoomRow × Option String :=
  match Get db roomID with
  | .error err => (db, some err)
  | .ok r =>
    if userID ∈ r.Members then (db, none)
    else
      let members := Join (r.Members ++ [userID]) ","
      (updateMembers db members roomID, none)

/-- The stored members string of room `id`, if the room exists. -/
def storedMembers (db : List RoomRow) (id : String) : Option String :=
  (queryRow db id).map (fun row => row.members)

end SQLiteRoomStore

/-! ## Vocabulary of the specification

These definitions follow the words of the specification, not the source: they say, of a
sequence of registry operations or of a registry, what the specification calls unregistered,
registered, bound and subscribed. -/

namespace Spec

/-- In `ops`, connection `c` was unregistered and has not been registered again since. -/
def UnregisteredIn (c : Conn) (ops : List RegistryOp) : Prop :=
  ∃ pre post, ops = pre ++ RegistryOp.unregister c :: post ∧ RegistryOp.register c ∉ post

/-- In `ops`, connection `c` was registered and has not been unregistered since. -/
def RegisteredIn (c : Conn) (ops : List RegistryOp) : Prop :=
  ∃ pre post, ops = pre ++ RegistryOp.register c :: post ∧ RegistryOp.unregister c ∉ post

/-- In `ops`, connection `c` was bound to room `r`, and since then it has neither been
unregistered nor bound to another room. -/
def BoundIn (c : Conn) (r : String) (ops : List RegistryOp) : Prop :=
  ∃ pre post, ops = pre ++ RegistryOp.bind c r :: post ∧ RegistryOp.unregister c ∉ post ∧
    ∀ r1, RegistryOp.bind c r1 ∈ post → r1 = r

/-- The registered connections bound to room `r`: the keys of `conns` whose entry in
`connRooms` is `r`. -/
def boundTo (s : Server) (r : String) : List Conn :=
  s.conns.keys.filter (fun ws => decide (s.connRooms.entry ws = some r))

end Spec

/-! ## Sample inputs -/

/-- Sample environment: fixed identifier, clock reading `k` at the `k`-th call, an encoder that
always succeeds, and no failing collaborator. -/
def sampleEnv : Env :=
  { uuidNewString := fun _ => "id"
    timeNowUnix := fun k => (k : Int)
    jsonMarshal := fun m => .ok (m.UserID ++ ":" ++ m.RoomID ++ ":" ++ m.Content)
    wsWrite := fun _ _ => none
    storeSave := fun _ => none
    presenceSetErr := fun _ => none }

/-- Sample message to room `r`. -/
def sampleMsg (r : String) : Message :=
  { ID := "", UserID := "alice", RoomID := r, Content := "hi", Timestamp := 0 }

/-- Sample sequence: two connections join room `r1`, then the first one leaves. -/
def sampleOps : List RegistryOp :=
  [.register 1, .bind 1 "r1", .register 2, .bind 2 "r1", .unregister 1]

/-- Sample registry: connection 1 is registered and has sent no valid message yet. -/
def sampleUnbound : Server := { conns := [(1, true)], connRooms := [] }

/-- Sample registry: connection 1 is bound to `r1`, connection 2 is registered and unbound. -/
def sampleMixed : Server := { conns := [(1, true), (2, true)], connRooms := [(1, "r1")] }

/-- Sample inbound frames: a value of the wrong type, an invalid message and two valid ones. -/
def sampleStream : List Frame :=
  [.mismatch "type", .value (sampleMsg ""), .value (sampleMsg "r1"), .value (sampleMsg "r2")]

/-- Sample inbound frames: a valid message, bytes that are not JSON, a valid message. -/
def sampleStreamMalformed : List Frame :=
  [.value (sampleMsg "r1"), .malformed "syntax", .value (sampleMsg "r2")]

/-- Sample environment whose clock is set back by one second between two readings. -/
def sampleEnvClockBack : Env := { sampleEnv with timeNowUnix := fun k => 100 - (k : Int) }

/-- Sample actions around connection 1: connection 2 connects, connection 1 receives a
malformed frame, an invalid message and a valid message, connection 3 connects, sends a valid
message to the room of connection 1 and reaches the end of its stream. -/
def sampleActions : List Action :=
  [.connect 2 "bob", .frame 1 "alice" (.err "syntax"), .frame 1 "alice" (.msg (sampleMsg "")),
   .frame 1 "alice" (.msg (sampleMsg "r1")), .connect 3 "carol",
   .frame 3 "carol" (.msg (sampleMsg "r1")), .frame 3 "carol" .eof]

/-- Sample environment in which every write to a connection fails. -/
def sampleEnvWriteFails : Env := { sampleEnv with wsWrite := fun _ _ => some "broken pipe" }

/-- Sample table `rooms` with three rooms. -/
def sampleRooms : List RoomRow :=
  [{ id := "r1", name := "general", members := "alice,bob" },
   { id := "r2", name := "empty", members := "" },
   { id := "r3", name := "odd", members := "bob,,bob" }]

/-! ## Lemmas on Go maps -/

namespace GoMap

variable {κ ν : Type} [DecidableEq κ]

theorem mem_keys_delete (m : GoMap κ ν) (k c : κ) :
    c ∈ keys (delete m k) ↔ c ∈ keys m ∧ c ≠ k := by
  unfold keys delete
  simp only [List.mem_map, List.mem_filter, decide_eq_true_eq]
  constructor
  · rintro ⟨e, ⟨he, hne⟩, rfl⟩
    exact ⟨⟨e, he, rfl⟩, hne⟩
  · rintro ⟨⟨e, he, rfl⟩, hne⟩
    exact ⟨e, ⟨he, hne⟩, rfl⟩

theorem mem_keys_set (m : GoMap κ ν) (k c : κ) (v : ν) :
    c ∈ keys (set m k v) ↔ c = k ∨ c ∈ keys m := by
  have h := mem_keys_delete m k c
  unfold set
  unfold keys at h ⊢
  rw [List.map_cons, List.mem_cons, h]
  by_cases hc : c = k
  · simp [hc]
  · simp [hc]

theorem entry_eq_none_iff (m : GoMap κ ν) (k : κ) : entry m k = none ↔ k ∉ keys m := by
  induction m with
  | nil => simp [entry, keys]
  | cons e rest ih =>
    obtain ⟨k1, v⟩ := e
    unfold keys at ih ⊢
    by_cases h : k1 = k
    · simp [entry, h]
    · have h2 : ¬ k = k1 := fun h3 => h h3.symm
      simp [entry, h, h2, ih]

theorem entry_delete_self (m : GoMap κ ν) (k : κ) : entry (delete m k) k = none := by
  rw [entry_eq_none_iff, mem_keys_delete]
  exact fun h => h.2 rfl

theorem delete_cons (k1 : κ) (v : ν) (rest : GoMap κ ν) (k : κ) :
    delete ((k1, v) :: rest) k = if k1 = k then delete rest k else (k1, v) :: delete rest k := by
  unfold delete
  by_cases h : k1 = k
  · simp [List.filter, h]
  · simp [List.filter, h]

theorem entry_delete_ne (m : GoMap κ ν) (k c : κ) (h : c ≠ k) :
    entry (delete m k) c = entry m c := by
  induction m with
  | nil => rfl
  | cons e rest ih =>
    obtain ⟨k1, v⟩ := e
    rw [delete_cons]
    by_cases h1 : k1 = k
    · have h2 : ¬ k1 = c := fun h3 => h (h3 ▸ h1)
      rw [if_pos h1, ih]
      simp [entry, h2]
    · rw [if_neg h1]
      by_cases h2 : k1 = c
      · simp [entry, h2]
      · simp [entry, h2, ih]

theorem entry_set_self (m : GoMap κ ν) (k : κ) (v : ν) : entry (set m k v) k = some v := by
  simp [set, entry]

theorem entry_set_ne (m : GoMap κ ν) (k c : κ) (v : ν) (h : c ≠ k) :
    entry (set m k v) c = entry m c := by
  have h2 : ¬ k = c := fun h3 => h h3.symm
  simp [set, entry, h2, entry_delete_ne m k c h]

theorem delete_of_not_mem (m : GoMap κ ν) (k : κ) (h : k ∉ keys m) : delete m k = m := by
  unfold delete
  rw [List.filter_eq_self]
  intro e he
  have : e.1 ≠ k := fun h1 => h (h1 ▸ List.mem_map_of_mem Prod.fst he)
  simpa using this

theorem keys_delete (m : GoMap κ ν) (k : κ) :
    keys (delete m k) = (keys m).filter (fun c => decide (c ≠ k)) := by
  unfold keys delete
  rw [List.filter_map]
  rfl

theorem wf_delete (m : GoMap κ ν) (k : κ) (h : WF m) : WF (delete m k) := by
  unfold WF at *
  rw [keys_delete]
  exact h.filter _

theorem wf_set (m : GoMap κ ν) (k : κ) (v : ν) (h : WF m) : WF (set m k v) := by
  have h1 := wf_delete m k h
  have h2 : k ∉ keys (delete m k) := fun hk => ((mem_keys_delete m k k).mp hk).2 rfl
  unfold WF at *
  unfold set
  unfold keys at *
  rw [List.map_cons, List.nodup_cons]
  exact ⟨h2, h1⟩

end GoMap

/-! ## Lemmas on the effect projections and on `broadcast` -/

theorem writeTargets_append (xs ys : List Effect) :
    writeTargets (xs ++ ys) = writeTargets xs ++ writeTargets ys := by
  induction xs with
  | nil => rfl
  | cons e rest ih => cases e <;> simp [writeTargets, ih]

theorem writePayloads_append (xs ys : List Effect) :
    writePayloads (xs ++ ys) = writePayloads xs ++ writePayloads ys := by
  induction xs with
  | nil => rfl
  | cons e rest ih => cases e <;> simp [writePayloads, ih]

theorem presenceCalls_append (xs ys : List Effect) :
    presenceCalls (xs ++ ys) = presenceCalls xs ++ presenceCalls ys := by
  induction xs with
  | nil => rfl
  | cons e rest ih => cases e <;> simp [presenceCalls, ih]

theorem broadcastCalls_append (xs ys : List Effect) :
    broadcastCalls (xs ++ ys) = broadcastCalls xs ++ broadcastCalls ys := by
  induction xs with
  | nil => rfl
  | cons e rest ih => cases e <;> simp [broadcastCalls, ih]

theorem writeTargets_writeTask (env : Env) (ws : Conn) (b : String) :
    writeTargets (writeTask env ws b) = [ws] := by
  unfold writeTask
  cases env.wsWrite ws b <;> rfl

theorem writePayloads_writeTask (env : Env) (ws : Conn) (b : String) :
    writePayloads (writeTask env ws b) = [b] := by
  unfold writeTask
  cases env.wsWrite ws b <;> rfl

theorem presenceCalls_writeTask (env : Env) (ws : Conn) (b : String) :
    presenceCalls (writeTask env ws b) = [] := by
  unfold writeTask
  cases env.wsWrite ws b <;> rfl

theorem writeTargets_broadcastLoop (env : Env) (s : Server) (msg : Message) (b : String)
    (ks : List Conn) :
    writeTargets (broadcastLoop env s msg b ks) =
      ks.filter (fun ws => decide (s.connRooms.index ws "" = msg.RoomID)) := by
  induction ks with
  | nil => rfl
  | cons ws rest ih =>
    by_cases h : s.connRooms.index ws "" = msg.RoomID
    · simp [broadcastLoop, h, writeTargets_append, writeTargets_writeTask, ih]
    · simp [broadcastLoop, h, ih]

theorem writePayloads_broadcastLoop (env : Env) (s : Server) (msg : Message) (b : String)
    (ks : List Conn) :
    writePayloads (broadcastLoop env s msg b ks) =
      List.replicate (writeTargets (broadcastLoop env s msg b ks)).length b := by
  induction ks with
  | nil => rfl
  | cons ws rest ih =>
    by_cases h : s.connRooms.index ws "" = msg.RoomID
    · simp [broadcastLoop, h, writeTargets_append, writeTargets_writeTask,
        writePayloads_append, writePayloads_writeTask, ih, List.replicate_succ]
    · simp [broadcastLoop, h, ih]

theorem presenceCalls_broadcastLoop (env : Env) (s : Server) (msg : Message) (b : String)
    (ks : List Conn) : presenceCalls (broadcastLoop env s msg b ks) = [] := by
  induction ks with
  | nil => rfl
  | cons ws rest ih =>
    by_cases h : s.connRooms.index ws "" = msg.RoomID
    · simp [broadcastLoop, h, presenceCalls_append, presenceCalls_writeTask, ih]
    · simp [broadcastLoop, h, ih]

theorem presenceCalls_broadcast (env : Env) (s : Server) (msg : Message) :
    presenceCalls (broadcast env s msg) = [] := by
  unfold broadcast
  cases env.jsonMarshal msg with
  | error e => rfl
  | ok b => simp [presenceCalls, presenceCalls_broadcastLoop]

theorem writeTargets_broadcast (env : Env) (s : Server) (msg : Message) (b : String)
    (hb : env.jsonMarshal msg = .ok b) :
    writeTargets (broadcast env s msg) =
      s.conns.keys.filter (fun ws => decide (s.connRooms.index ws "" = msg.RoomID)) := by
  unfold broadcast
  rw [hb]
  simp [writeTargets, writeTargets_broadcastLoop]

theorem writeTargets_broadcast_sub (env : Env) (s : Server) (msg : Message) (c : Conn)
    (h : c ∈ writeTargets (broadcast env s msg)) :
    c ∈ s.conns.keys ∧ s.connRooms.index c "" = msg.RoomID := by
  unfold broadcast at h
  cases hm : env.jsonMarshal msg with
  | error e => rw [hm] at h; simp [writeTargets] at h
  | ok b =>
    rw [hm] at h
    simpa [writeTargets, writeTargets_broadcastLoop] using h

theorem mem_writeTargets_broadcast (env : Env) (s : Server) (msg : Message) (b : String)
    (hb : env.jsonMarshal msg = .ok b) (c : Conn) :
    c ∈ writeTargets (broadcast env s msg) ↔
      c ∈ s.conns.keys ∧ s.connRooms.index c "" = msg.RoomID := by
  rw [writeTargets_broadcast env s msg b hb]
  simp

/-! ## Lemmas on sequences of registry operations -/

theorem runOps_append (s : Server) (xs ys : List RegistryOp) :
    runOps s (xs ++ ys) = runOps (runOps s xs) ys := by
  simp [runOps, List.foldl_append]

theorem runOps_cons (s : Server) (op : RegistryOp) (ops : List RegistryOp) :
    runOps s (op :: ops) = runOps (applyOp s op) ops := rfl

theorem runOps_absent (c : Conn) (post : List RegistryOp) (s : Server)
    (hs : c ∉ s.conns.keys) (hpost : RegistryOp.register c ∉ post) :
    c ∉ (runOps s post).conns.keys := by
  induction post generalizing s with
  | nil => exact hs
  | cons op rest ih =>
    rw [runOps_cons]
    rw [List.mem_cons, not_or] at hpost
    apply ih _ _ hpost.2
    cases op with
    | register ws =>
      have hne : c ≠ ws := fun h => hpost.1 (by rw [h])
      simp only [applyOp, register]
      rw [GoMap.mem_keys_set]
      exact fun h => h.elim hne hs
    | bind ws roomID => exact hs
    | unregister ws =>
      simp only [applyOp, removeConn]
      rw [GoMap.mem_keys_delete]
      exact fun h => hs h.1

theorem runOps_present (c : Conn) (post : List RegistryOp) (s : Server)
    (hs : c ∈ s.conns.keys) (hpost : RegistryOp.unregister c ∉ post) :
    c ∈ (runOps s post).conns.keys := by
  induction post generalizing s with
  | nil => exact hs
  | cons op rest ih =>
    rw [runOps_cons]
    rw [List.mem_cons, not_or] at hpost
    apply ih _ _ hpost.2
    cases op with
    | register ws =>
      simp only [applyOp, register]
      rw [GoMap.mem_keys_set]
      exact Or.inr hs
    | bind ws roomID => exact hs
    | unregister ws =>
      have hne : c ≠ ws := fun h => hpost.1 (by rw [h])
      simp only [applyOp, removeConn]
      rw [GoMap.mem_keys_delete]
      exact ⟨hs, hne⟩

theorem runOps_bound (c : Conn) (r : String) (post : List RegistryOp) (s : Server)
    (hs : s.connRooms.entry c = some r) (hpost : RegistryOp.unregister c ∉ post)
    (hbind : ∀ r1, RegistryOp.bind c r1 ∈ post → r1 = r) :
    (runOps s post).connRooms.entry c = some r := by
  induction post generalizing s with
  | nil => exact hs
  | cons op rest ih =>
    rw [runOps_cons]
    rw [List.mem_cons, not_or] at hpost
    apply ih _ _ hpost.2 (fun r1 h1 => hbind r1 (List.mem_cons_of_mem _ h1))
    cases op with
    | register ws => exact hs
    | bind ws roomID =>
      simp only [applyOp, bind]
      by_cases hws : c = ws
      · have : roomID = r := hbind roomID (by rw [hws]; exact List.mem_cons_self _ _)
        rw [hws, this, GoMap.entry_set_self]
      · rw [GoMap.entry_set_ne _ _ _ _ hws]
        exact hs
    | unregister ws =>
      have hne : c ≠ ws := fun h => hpost.1 (by rw [h])
      simp only [applyOp, removeConn]
      rw [GoMap.entry_delete_ne _ _ _ hne]
      exact hs

theorem saveCalls_broadcastLoop (env : Env) (s : Server) (msg : Message) (b : String)
    (ks : List Conn) :
    saveCalls (broadcastLoop env s msg b ks) = [] ∧
    broadcastCalls (broadcastLoop env s msg b ks) = [] := by
  induction ks with
  | nil => exact ⟨rfl, rfl⟩
  | cons ws rest ih =>
    simp only [broadcastLoop]
    split
    · unfold writeTask
      cases env.wsWrite ws b <;> simpa [saveCalls, broadcastCalls] using ih
    · exact ih

theorem saveCalls_broadcast (env : Env) (s : Server) (msg : Message) :
    saveCalls (broadcast env s msg) = [] ∧ broadcastCalls (broadcast env s msg) = [msg] := by
  unfold broadcast
  cases env.jsonMarshal msg with
  | error e => exact ⟨rfl, rfl⟩
  | ok b =>
    have h := saveCalls_broadcastLoop env s msg b s.conns.keys
    simp [saveCalls, broadcastCalls, h.1, h.2]

theorem broadcastLoop_storeSave (env : Env) (save1 : Message → Option String) (s : Server)
    (msg : Message) (b : String) (ks : List Conn) :
    broadcastLoop { env with storeSave := save1 } s msg b ks = broadcastLoop env s msg b ks := by
  induction ks with
  | nil => rfl
  | cons ws rest ih =>
    simp only [broadcastLoop, ih]
    rfl

theorem broadcast_storeSave (env : Env) (save1 : Message → Option String) (s : Server)
    (msg : Message) :
    broadcast { env with storeSave := save1 } s msg = broadcast env s msg := by
  simp only [broadcast, broadcastLoop_storeSave]

/-! ### `readLoop` -/

theorem readLoopIter_invalid (env : Env) (sys : Sys) (ws : Conn) (userID : String)
    (m : Message) (h : m.Content = "" ∨ m.UserID = "" ∨ m.RoomID = "") :
    readLoopIter env sys ws userID (.msg m) =
      { sys := sys, effects := [Effect.logWarn "invalid message" m], state := .reading } := by
  simp only [readLoopIter]
  rw [if_pos h]

theorem readLoopIter_valid (env : Env) (sys : Sys) (ws : Conn) (userID : String)
    (m : Message) (h : m.Content ≠ "" ∧ m.UserID ≠ "" ∧ m.RoomID ≠ "") :
    readLoopIter env sys ws userID (.msg m) =
      { sys := { srv := bind sys.srv ws m.RoomID, uuids := sys.uuids + 1,
                 clock := sys.clock + 1 }
        effects :=
          Effect.save { m with ID := env.uuidNewString sys.uuids,
                               Timestamp := env.timeNowUnix sys.clock } ::
          broadcast env (bind sys.srv ws m.RoomID)
            { m with ID := env.uuidNewString sys.uuids,
                     Timestamp := env.timeNowUnix sys.clock }
        state := .reading } := by
  have h1 : ¬ (m.Content = "" ∨ m.UserID = "" ∨ m.RoomID = "") := by
    rintro (h1 | h1 | h1)
    · exact h.1 h1
    · exact h.2.1 h1
    · exact h.2.2 h1
  simp only [readLoopIter]
  rw [if_neg h1]

theorem readLoopIter_broadcastCalls_room (env : Env) (sys : Sys) (ws : Conn) (userID : String)
    (d : Decoded) (msg : Message)
    (h : msg ∈ broadcastCalls (readLoopIter env sys ws userID d).effects) :
    msg.RoomID ≠ "" ∧ msg.Content ≠ "" ∧ msg.UserID ≠ "" := by
  cases d with
  | eof => simp [readLoopIter, broadcastCalls] at h
  | err e => simp [readLoopIter, broadcastCalls] at h
  | msg m =>
    by_cases hm : m.Content = "" ∨ m.UserID = "" ∨ m.RoomID = ""
    · rw [readLoopIter_invalid env sys ws userID m hm] at h
      simp [broadcastCalls] at h
    · have h1 : m.Content ≠ "" ∧ m.UserID ≠ "" ∧ m.RoomID ≠ "" :=
        ⟨fun h2 => hm (Or.inl h2), fun h2 => hm (Or.inr (Or.inl h2)),
         fun h2 => hm (Or.inr (Or.inr h2))⟩
      rw [readLoopIter_valid env sys ws userID m h1] at h
      simp only [broadcastCalls, (saveCalls_broadcast env _ _).2, List.mem_singleton] at h
      rw [h]
      exact ⟨h1.2.2, h1.1, h1.2.1⟩

theorem readLoopIter_reading (env : Env) (sys : Sys) (ws : Conn) (userID : String)
    (d : Decoded) (hd : d ≠ .eof) :
    (readLoopIter env sys ws userID d).state = .reading ∧
    presenceCalls (readLoopIter env sys ws userID d).effects = [] ∧
    sys.clock ≤ (readLoopIter env sys ws userID d).sys.clock := by
  cases d with
  | eof => exact absurd rfl hd
  | err e => exact ⟨rfl, rfl, le_refl _⟩
  | msg m =>
    by_cases h : m.Content = "" ∨ m.UserID = "" ∨ m.RoomID = ""
    · rw [readLoopIter_invalid env sys ws userID m h]
      exact ⟨rfl, rfl, le_refl _⟩
    · have h1 : m.Content ≠ "" ∧ m.UserID ≠ "" ∧ m.RoomID ≠ "" :=
        ⟨fun h2 => h (Or.inl h2), fun h2 => h (Or.inr (Or.inl h2)),
         fun h2 => h (Or.inr (Or.inr h2))⟩
      rw [readLoopIter_valid env sys ws userID m h1]
      exact ⟨rfl, by simp [presenceCalls, presenceCalls_broadcast], Nat.le_succ _⟩

theorem readLoop_cons_reading (env : Env) (sys : Sys) (ws : Conn) (userID : String)
    (d : Decoded) (ds : List Decoded)
    (h : (readLoopIter env sys ws userID d).state = .reading) :
    readLoop env sys ws userID (d :: ds) =
      { sys := (readLoop env (readLoopIter env sys ws userID d).sys ws userID ds).sys
        effects := (readLoopIter env sys ws userID d).effects ++
          (readLoop env (readLoopIter env sys ws userID d).sys ws userID ds).effects
        state := (readLoop env (readLoopIter env sys ws userID d).sys ws userID ds).state } := by
  simp only [readLoop]
  rw [h]

theorem readLoop_broadcastCalls_room (env : Env) (ws : Conn) (userID : String)
    (frames : List Decoded) (sys : Sys) (msg : Message)
    (h : msg ∈ broadcastCalls (readLoop env sys ws userID frames).effects) :
    msg.RoomID ≠ "" ∧ msg.Content ≠ "" ∧ msg.UserID ≠ "" := by
  induction frames generalizing sys with
  | nil => simp [readLoop, broadcastCalls] at h
  | cons d ds ih =>
    cases hst : (readLoopIter env sys ws userID d).state with
    | closed =>
      have h1 : readLoop env sys ws userID (d :: ds) = readLoopIter env sys ws userID d := by
        simp only [readLoop]
        rw [hst]
      rw [h1] at h
      exact readLoopIter_broadcastCalls_room env sys ws userID d msg h
    | reading =>
      rw [readLoop_cons_reading env sys ws userID d ds hst] at h
      simp only [broadcastCalls_append, List.mem_append] at h
      rcases h with h | h
      · exact readLoopIter_broadcastCalls_room env sys ws userID d msg h
      · exact ih _ h

theorem readLoop_eof (env : Env) (sys : Sys) (ws : Conn) (userID : String)
    (ds : List Decoded) :
    readLoop env sys ws userID (.eof :: ds) = readLoopIter env sys ws userID .eof := by
  simp [readLoop, readLoopIter]

theorem readLoop_append (env : Env) (ws : Conn) (userID : String) (frames rest : List Decoded)
    (sys : Sys) (hne : Decoded.eof ∉ frames) :
    readLoop env sys ws userID (frames ++ rest) =
      { sys := (readLoop env (readLoop env sys ws userID frames).sys ws userID rest).sys
        effects := (readLoop env sys ws userID frames).effects ++
          (readLoop env (readLoop env sys ws userID frames).sys ws userID rest).effects
        state := (readLoop env (readLoop env sys ws userID frames).sys ws userID rest).state } := by
  induction frames generalizing sys with
  | nil => simp [readLoop]
  | cons d ds ih =>
    rw [List.mem_cons, not_or] at hne
    have hd : d ≠ .eof := fun h => hne.1 h.symm
    have hst := (readLoopIter_reading env sys ws userID d hd).1
    rw [List.cons_append, readLoop_cons_reading env sys ws userID d _ hst,
      readLoop_cons_reading env sys ws userID d _ hst, ih _ hne.2]
    simp [List.append_assoc]

theorem readLoop_reading (env : Env) (ws : Conn) (userID : String) (frames : List Decoded)
    (sys : Sys) (hne : Decoded.eof ∉ frames) :
    (readLoop env sys ws userID frames).state = .reading ∧
    presenceCalls (readLoop env sys ws userID frames).effects = [] ∧
    sys.clock ≤ (readLoop env sys ws userID frames).sys.clock := by
  induction frames generalizing sys with
  | nil => exact ⟨rfl, rfl, le_refl _⟩
  | cons d ds ih =>
    rw [List.mem_cons, not_or] at hne
    have hd : d ≠ .eof := fun h => hne.1 h.symm
    obtain ⟨hst, hp, hc⟩ := readLoopIter_reading env sys ws userID d hd
    obtain ⟨hst1, hp1, hc1⟩ := ih (readLoopIter env sys ws userID d).sys hne.2
    rw [readLoop_cons_reading env sys ws userID d _ hst]
    exact ⟨hst1, by simp [presenceCalls_append, hp, hp1], le_trans hc hc1⟩

theorem index_eq_iff_entry (m : GoMap Conn String) (c : Conn) (r : String) (hr : r ≠ "") :
    m.index c "" = r ↔ m.entry c = some r := by
  unfold GoMap.index
  cases h : m.entry c with
  | none =>
    constructor
    · intro h1
      exact absurd h1.symm hr
    · intro h1
      cases h1
  | some v => simp

/-! ## Lemmas on `strings.Split`, `strings.Join` and the room store -/

theorem splitChars_ne_nil (sep : Char) (cs : List Char) : splitChars sep cs ≠ [] := by
  cases cs with
  | nil => simp [splitChars]
  | cons c rest =>
    simp only [splitChars]
    split
    · simp
    · split <;> simp

theorem splitChars_of_not_mem (sep : Char) (cs : List Char) (h : sep ∉ cs) :
    splitChars sep cs = [cs] := by
  induction cs with
  | nil => rfl
  | cons c rest ih =>
    rw [List.mem_cons, not_or] at h
    have hc : ¬ c = sep := fun h1 => h.1 h1.symm
    simp only [splitChars, if_neg hc, ih h.2]

theorem splitChars_cons (sep c : Char) (cs : List Char) :
    splitChars sep (c :: cs) =
      if c = sep then [] :: splitChars sep cs
      else
        match splitChars sep cs with
        | [] => [[c]]
        | w :: ws => (c :: w) :: ws := rfl

theorem splitChars_append (sep : Char) (xs ys : List Char) :
    splitChars sep (xs ++ sep :: ys) = splitChars sep xs ++ splitChars sep ys := by
  induction xs with
  | nil => simp [splitChars]
  | cons c rest ih =>
    rw [List.cons_append, splitChars_cons, splitChars_cons, ih]
    by_cases hc : c = sep
    · rw [if_pos hc, if_pos hc]
      rfl
    · rw [if_neg hc, if_neg hc]
      cases hsp : splitChars sep rest with
      | nil => exact absurd hsp (splitChars_ne_nil sep rest)
      | cons w ws => rfl

theorem Join_cons_cons (a b : String) (rest : List String) (sep : String) :
    Join (a :: b :: rest) sep = a ++ sep ++ Join (b :: rest) sep := rfl

theorem Join_append_singleton (l : List String) (u sep : String) (hl : l ≠ []) :
    Join (l ++ [u]) sep = Join l sep ++ sep ++ u := by
  induction l with
  | nil => exact absurd rfl hl
  | cons a rest ih =>
    cases rest with
    | nil => rfl
    | cons b rest1 =>
      have h1 := ih (by simp)
      rw [List.cons_append, List.cons_append, Join_cons_cons, ← List.cons_append, h1,
        Join_cons_cons]
      simp only [String.append_assoc]

theorem Join_Split_data (sep : Char) (cs : List Char) :
    (Join ((splitChars sep cs).map String.mk) (String.mk [sep])).data = cs := by
  induction cs with
  | nil => rfl
  | cons c rest ih =>
    cases hsp : splitChars sep rest with
    | nil => exact absurd hsp (splitChars_ne_nil sep rest)
    | cons w ws =>
      rw [hsp] at ih
      by_cases hc : c = sep
      · simp only [splitChars, if_pos hc, hsp, List.map_cons, Join_cons_cons,
          String.data_append]
        rw [List.map_cons] at ih
        rw [ih, hc]
        rfl
      · simp only [splitChars, if_neg hc, hsp, List.map_cons]
        cases ws with
        | nil =>
          simp only [List.map_nil, Join] at ih ⊢
          rw [← ih]
        | cons w2 ws2 =>
          simp only [List.map_cons, Join_cons_cons, String.data_append] at ih ⊢
          rw [← ih]
          rfl

theorem Join_Split (s : String) : Join (Split s ',') "," = s := by
  apply String.ext
  exact Join_Split_data ',' s.data

theorem Split_ne_nil (s : String) (sep : Char) : Split s sep ≠ [] := by
  unfold Split
  intro h
  exact splitChars_ne_nil sep s.data (List.map_eq_nil_iff.mp h)

theorem Split_append_member (s u : String) (hu : ',' ∉ u.data) :
    Split (s ++ "," ++ u) ',' = Split s ',' ++ [u] := by
  unfold Split
  have h1 : (s ++ "," ++ u).data = s.data ++ ',' :: u.data := by
    simp only [String.data_append, List.append_assoc]
    rfl
  rw [h1, splitChars_append, splitChars_of_not_mem ',' u.data hu, List.map_append]
  rfl

theorem Split_of_no_sep (u : String) (hu : ',' ∉ u.data) : Split u ',' = [u] := by
  unfold Split
  rw [splitChars_of_not_mem ',' u.data hu]
  rfl

theorem append_sep_ne_empty (s u : String) : s ++ "," ++ u ≠ "" := by
  intro h
  have h1 := congrArg String.data h
  simp only [String.data_append] at h1
  have h2 := congrArg List.length h1
  simp at h2

namespace SQLiteRoomStore

theorem queryRow_updateMembers (db : List RoomRow) (id members : String) (row : RoomRow)
    (h : queryRow db id = some row) :
    queryRow (updateMembers db members id) id = some { row with members := members } := by
  induction db with
  | nil => simp [queryRow] at h
  | cons r rest ih =>
    by_cases hr : r.id = id
    · simp only [queryRow, if_pos hr, Option.some.injEq] at h
      simp only [updateMembers, List.map_cons, if_pos hr, queryRow]
      rw [h]
    · simp only [queryRow, if_neg hr] at h
      have h1 := ih h
      simp only [updateMembers] at h1
      simp only [updateMembers, List.map_cons, if_neg hr, queryRow]
      exact h1

theorem Get_of_queryRow (db : List RoomRow) (id : String) (row : RoomRow)
    (h : queryRow db id = some row) :
    Get db id = .ok { ID := row.id, Name := row.name
                      Members := if row.members ≠ "" then Split row.members ',' else [] } := by
  simp only [Get, h]

/-- Decoding the members string written by `AddMember` for a new member. -/
theorem decode_Join_append (s u : String) (hne : u ≠ "") (hu : ',' ∉ u.data) :
    Join ((if s ≠ "" then Split s ',' else []) ++ [u]) "," ≠ "" ∧
    Split (Join ((if s ≠ "" then Split s ',' else []) ++ [u]) ",") ',' =
      (if s ≠ "" then Split s ',' else []) ++ [u] := by
  by_cases hs : s = ""
  · have h0 : (if s ≠ "" then Split s ',' else []) = [] := by simp [hs]
    rw [h0]
    exact ⟨hne, Split_of_no_sep u hu⟩
  · have h0 : (if s ≠ "" then Split s ',' else []) = Split s ',' := by simp [hs]
    rw [h0, Join_append_singleton _ u "," (Split_ne_nil s ','), Join_Split]
    exact ⟨append_sep_ne_empty s u, Split_append_member s u hu⟩

end SQLiteRoomStore

/-! ## Lemmas on the decoder and on runs of `HandleWS` -/

theorem decodeOutcomes_succ (n : Nat) (dec : Decoder) :
    decodeOutcomes (n + 1) dec = dec.Decode.1 :: decodeOutcomes n dec.Decode.2 := rfl

theorem decodeOutcomes_stored (n : Nat) (input : List Frame) (e : String) :
    Decoded.eof ∉ decodeOutcomes n { input := input, err := some e } := by
  induction n with
  | zero => simp [decodeOutcomes]
  | succ n ih =>
    rw [decodeOutcomes_succ]
    simp only [Decoder.Decode, List.mem_cons, not_or]
    exact ⟨fun h => (by cases h), ih⟩

theorem decodeOutcomes_malformed (frames : List Frame) (e : String)
    (h : Frame.malformed e ∈ frames) (n : Nat) :
    Decoded.eof ∉ decodeOutcomes n { input := frames, err := none } := by
  induction frames generalizing n with
  | nil => simp at h
  | cons f fs ih =>
    cases n with
    | zero => simp [decodeOutcomes]
    | succ n =>
      rw [decodeOutcomes_succ]
      cases f with
      | value m =>
        have h1 : Frame.malformed e ∈ fs := by simpa using h
        simp only [Decoder.Decode, List.mem_cons, not_or]
        exact ⟨fun h2 => (by cases h2), ih h1 n⟩
      | mismatch e1 =>
        have h1 : Frame.malformed e ∈ fs := by simpa using h
        simp only [Decoder.Decode, List.mem_cons, not_or]
        exact ⟨fun h2 => (by cases h2), ih h1 n⟩
      | malformed e1 =>
        simp only [Decoder.Decode, List.mem_cons, not_or]
        exact ⟨fun h2 => (by cases h2), decodeOutcomes_stored n fs e1⟩

theorem decodeOutcomes_short (frames : List Frame) (n : Nat) (h : n ≤ frames.length) :
    Decoded.eof ∉ decodeOutcomes n { input := frames, err := none } := by
  induction frames generalizing n with
  | nil =>
    have h0 : n = 0 := by simpa using h
    rw [h0]
    simp [decodeOutcomes]
  | cons f fs ih =>
    cases n with
    | zero => simp [decodeOutcomes]
    | succ n =>
      have h1 : n ≤ fs.length := by simpa using h
      rw [decodeOutcomes_succ]
      cases f with
      | value m =>
        simp only [Decoder.Decode, List.mem_cons, not_or]
        exact ⟨fun h2 => (by cases h2), ih n h1⟩
      | mismatch e1 =>
        simp only [Decoder.Decode, List.mem_cons, not_or]
        exact ⟨fun h2 => (by cases h2), ih n h1⟩
      | malformed e1 =>
        simp only [Decoder.Decode, List.mem_cons, not_or]
        exact ⟨fun h2 => (by cases h2), decodeOutcomes_stored n fs e1⟩

theorem decodeOutcomes_complete (frames : List Frame)
    (hwell : ∀ e, Frame.malformed e ∉ frames) (n : Nat) (hn : frames.length < n) :
    ∃ pre rest, decodeOutcomes n { input := frames, err := none } = pre ++ Decoded.eof :: rest ∧
      Decoded.eof ∉ pre := by
  induction frames generalizing n with
  | nil =>
    cases n with
    | zero => simp at hn
    | succ n => exact ⟨[], decodeOutcomes n _, rfl, by simp⟩
  | cons f fs ih =>
    cases n with
    | zero => simp at hn
    | succ n =>
      have h1 : fs.length < n := by simpa using hn
      have hw : ∀ e, Frame.malformed e ∉ fs :=
        fun e h2 => hwell e (List.mem_cons_of_mem _ h2)
      obtain ⟨pre, rest, heq, hpre⟩ := ih hw n h1
      rw [decodeOutcomes_succ]
      cases f with
      | value m =>
        refine ⟨Decoded.msg m :: pre, rest, ?_, ?_⟩
        · simp only [Decoder.Decode, heq, List.cons_append]
        · simp only [List.mem_cons, not_or]
          exact ⟨fun h2 => (by cases h2), hpre⟩
      | mismatch e1 =>
        refine ⟨Decoded.err e1 :: pre, rest, ?_, ?_⟩
        · simp only [Decoder.Decode, heq, List.cons_append]
        · simp only [List.mem_cons, not_or]
          exact ⟨fun h2 => (by cases h2), hpre⟩
      | malformed e1 => exact absurd (List.mem_cons_self _ _) (hwell e1)

theorem HandleWS_reading (env : Env) (sys : Sys) (ws : Conn) (U : String)
    (outcomes : List Decoded) (hne : Decoded.eof ∉ outcomes) :
    presenceCalls (HandleWS env sys ws U outcomes).effects =
      [{ UserID := U, Online := true, LastSeen := env.timeNowUnix sys.clock }] ∧
    (HandleWS env sys ws U outcomes).state = .reading := by
  obtain ⟨hst, hp, _⟩ :=
    readLoop_reading env ws U outcomes { sys with srv := register sys.srv ws,
                                                  clock := sys.clock + 1 } hne
  constructor
  · simp [HandleWS, presenceCalls, hp]
  · simp only [HandleWS]
    exact hst

theorem HandleWS_closed (env : Env) (sys : Sys) (ws : Conn) (U : String)
    (pre rest : List Decoded) (hne : Decoded.eof ∉ pre) :
    ∃ k : Nat, sys.clock < k ∧
      presenceCalls (HandleWS env sys ws U (pre ++ Decoded.eof :: rest)).effects =
        [{ UserID := U, Online := true, LastSeen := env.timeNowUnix sys.clock },
         { UserID := U, Online := false, LastSeen := env.timeNowUnix k }] ∧
      (HandleWS env sys ws U (pre ++ Decoded.eof :: rest)).state = .closed := by
  obtain ⟨_, hp, hc⟩ :=
    readLoop_reading env ws U pre { sys with srv := register sys.srv ws,
                                             clock := sys.clock + 1 } hne
  refine ⟨(readLoop env { sys with srv := register sys.srv ws,
                                   clock := sys.clock + 1 } ws U pre).sys.clock,
    Nat.lt_of_succ_le hc, ?_, ?_⟩
  · simp only [HandleWS]
    rw [readLoop_append env ws U pre (Decoded.eof :: rest) _ hne, readLoop_eof]
    simp [presenceCalls, presenceCalls_append, hp, readLoopIter]
  · simp only [HandleWS]
    rw [readLoop_append env ws U pre (Decoded.eof :: rest) _ hne, readLoop_eof]
    rfl

/-! ## The claims -/

/-- C1. After any sequence of register, bind and unregister operations, from any registry:
a connection that was unregistered (and not registered again since) receives no write from
`broadcast`, whatever the message; a connection that was registered and bound to the room of
the message, and not unregistered since, receives a write from `broadcast` of any message
that `json.Marshal` encodes. -/
theorem C1_broadcast_selection (env : Env) (s0 : Server) (ops : List RegistryOp)
    (msg : Message) (c : Conn) :
    (Spec.UnregisteredIn c ops → c ∉ writeTargets (broadcast env (runOps s0 ops) msg)) ∧
    (Spec.RegisteredIn c ops → Spec.BoundIn c msg.RoomID ops →
      ∀ b, env.jsonMarshal msg = .ok b →
        c ∈ writeTargets (broadcast env (runOps s0 ops) msg)) := by
  constructor
  · rintro ⟨pre, post, rfl, hpost⟩ hmem
    have h1 := (writeTargets_broadcast_sub env _ msg c hmem).1
    rw [runOps_append, runOps_cons] at h1
    refine runOps_absent c post _ ?_ hpost h1
    simp only [applyOp, removeConn]
    rw [GoMap.mem_keys_delete]
    exact fun h => h.2 rfl
  · rintro ⟨pre, post, hops, hpost⟩ ⟨pre1, post1, hops1, hpost1, hbind1⟩ b hb
    rw [mem_writeTargets_broadcast env _ msg b hb]
    constructor
    · rw [hops, runOps_append, runOps_cons]
      refine runOps_present c post _ ?_ hpost
      simp only [applyOp, register]
      rw [GoMap.mem_keys_set]
      exact Or.inl rfl
    · rw [hops1, runOps_append, runOps_cons]
      have h2 := runOps_bound c msg.RoomID post1 (applyOp (runOps s0 pre1)
        (RegistryOp.bind c msg.RoomID)) (by simp [applyOp, bind, GoMap.entry_set_self])
        hpost1 hbind1
      unfold GoMap.index
      rw [h2]

/-- Witness of C1 on `sampleOps`: connection 1 was unregistered and is not written to,
connection 2 is registered and bound to `r1` and is written to. -/
theorem C1_broadcast_selection_witness :
    (Spec.UnregisteredIn 1 sampleOps ∧
      1 ∉ writeTargets (broadcast sampleEnv (runOps New sampleOps) (sampleMsg "r1"))) ∧
    (Spec.RegisteredIn 2 sampleOps ∧ Spec.BoundIn 2 "r1" sampleOps ∧
      2 ∈ writeTargets (broadcast sampleEnv (runOps New sampleOps) (sampleMsg "r1"))) := by
  have hu : Spec.UnregisteredIn 1 sampleOps :=
    ⟨[.register 1, .bind 1 "r1", .register 2, .bind 2 "r1"], [], rfl, by simp⟩
  have hr : Spec.RegisteredIn 2 sampleOps :=
    ⟨[.register 1, .bind 1 "r1"], [.bind 2 "r1", .unregister 1], rfl, by simp⟩
  have hb : Spec.BoundIn 2 "r1" sampleOps :=
    ⟨[.register 1, .bind 1 "r1", .register 2], [.unregister 1], rfl, by simp, by simp⟩
  exact ⟨⟨hu, (C1_broadcast_selection sampleEnv New sampleOps (sampleMsg "r1") 1).1 hu⟩,
    hr, hb, (C1_broadcast_selection sampleEnv New sampleOps (sampleMsg "r1") 2).2 hr hb _ rfl⟩

/-- C2. One iteration of `readLoop` on a decoded message whose Content, UserID or RoomID is
empty calls neither `store.Save` nor `broadcast`, writes to no connection, leaves `conns` and
`connRooms` as they were, and stays in the reading state; it only logs a warning. -/
theorem C2_invalid_message_discarded (env : Env) (sys : Sys) (ws : Conn) (userID : String)
    (m : Message) (h : m.Content = "" ∨ m.UserID = "" ∨ m.RoomID = "") :
    saveCalls (readLoopIter env sys ws userID (.msg m)).effects = [] ∧
    broadcastCalls (readLoopIter env sys ws userID (.msg m)).effects = [] ∧
    writeTargets (readLoopIter env sys ws userID (.msg m)).effects = [] ∧
    (readLoopIter env sys ws userID (.msg m)).effects = [Effect.logWarn "invalid message" m] ∧
    (readLoopIter env sys ws userID (.msg m)).sys.srv.conns = sys.srv.conns ∧
    (readLoopIter env sys ws userID (.msg m)).sys.srv.connRooms = sys.srv.connRooms ∧
    (readLoopIter env sys ws userID (.msg m)).state = .reading := by
  rw [readLoopIter_invalid env sys ws userID m h]
  exact ⟨rfl, rfl, rfl, rfl, rfl, rfl, rfl⟩

/-- Witness of C2: a message with an empty room and otherwise valid fields, sent by a
connection bound to `r1`. -/
theorem C2_invalid_message_discarded_witness :
    (sampleMsg "").RoomID = "" ∧
    saveCalls (readLoopIter sampleEnv ⟨sampleMixed, 0, 0⟩ 1 "alice"
      (.msg (sampleMsg ""))).effects = [] ∧
    broadcastCalls (readLoopIter sampleEnv ⟨sampleMixed, 0, 0⟩ 1 "alice"
      (.msg (sampleMsg ""))).effects = [] :=
  have h := C2_invalid_message_discarded sampleEnv ⟨sampleMixed, 0, 0⟩ 1 "alice"
    (sampleMsg "") (Or.inr (Or.inr rfl))
  ⟨rfl, h.1, h.2.1⟩

/-- C3, as stated, fails: in `sampleUnbound` no registered connection is bound to the room
`""` of the message (N = 0), yet `broadcast` issues one write, to the unbound connection 1. -/
theorem C3_counterexample :
    Spec.boundTo sampleUnbound (sampleMsg "").RoomID = [] ∧
    writeTargets (broadcast sampleEnv sampleUnbound (sampleMsg "")) = [1] ∧
    ¬ ((writeTargets (broadcast sampleEnv sampleUnbound (sampleMsg ""))).length =
        (Spec.boundTo sampleUnbound (sampleMsg "").RoomID).length) := by
  decide

/-- C3, amended. For every registry and every message with a non-empty RoomID that
`json.Marshal` encodes as `b`: `broadcast` writes to exactly the registered connections bound
to the room of the message, once each, so it issues as many writes as there are such
connections; every write carries `b`; and neither the connections written to nor the bytes
depend on the results of the writes. -/
theorem C3_broadcast_writes (env : Env) (s : Server) (msg : Message) (b : String)
    (hwf : s.conns.WF) (hroom : msg.RoomID ≠ "") (hb : env.jsonMarshal msg = .ok b) :
    writeTargets (broadcast env s msg) = Spec.boundTo s msg.RoomID ∧
    (writeTargets (broadcast env s msg)).Nodup ∧
    (writeTargets (broadcast env s msg)).length = (Spec.boundTo s msg.RoomID).length ∧
    writePayloads (broadcast env s msg) = List.replicate (Spec.boundTo s msg.RoomID).length b ∧
    ∀ wsWrite1 : Conn → String → Option String,
      writeTargets (broadcast { env with wsWrite := wsWrite1 } s msg) =
        writeTargets (broadcast env s msg) ∧
      writePayloads (broadcast { env with wsWrite := wsWrite1 } s msg) =
        writePayloads (broadcast env s msg) := by
  have hsel : ∀ env1 : Env, env1.jsonMarshal msg = .ok b →
      writeTargets (broadcast env1 s msg) = Spec.boundTo s msg.RoomID := by
    intro env1 h1
    rw [writeTargets_broadcast env1 s msg b h1]
    unfold Spec.boundTo
    apply List.filter_congr
    intro c _
    rw [decide_eq_decide]
    exact index_eq_iff_entry s.connRooms c msg.RoomID hroom
  have hpay : ∀ env1 : Env, env1.jsonMarshal msg = .ok b →
      writePayloads (broadcast env1 s msg) =
        List.replicate (Spec.boundTo s msg.RoomID).length b := by
    intro env1 h1
    rw [← hsel env1 h1]
    unfold broadcast
    rw [h1]
    simp only [writePayloads, writeTargets]
    exact writePayloads_broadcastLoop env1 s msg b _
  refine ⟨hsel env hb, ?_, ?_, hpay env hb, ?_⟩
  · rw [hsel env hb]
    exact List.Nodup.filter _ hwf
  · rw [hsel env hb]
  · intro wsWrite1
    have h1 : ({ env with wsWrite := wsWrite1 } : Env).jsonMarshal msg = .ok b := hb
    exact ⟨by rw [hsel _ h1, hsel env hb], by rw [hpay _ h1, hpay env hb]⟩

/-- Witness of C3 (amended): in `sampleMixed`, a message to `r1` is written once, to
connection 1. -/
theorem C3_broadcast_writes_witness :
    sampleMixed.conns.WF ∧ (sampleMsg "r1").RoomID ≠ "" ∧
    writeTargets (broadcast sampleEnv sampleMixed (sampleMsg "r1")) =
      Spec.boundTo sampleMixed (sampleMsg "r1").RoomID ∧
    writePayloads (broadcast sampleEnv sampleMixed (sampleMsg "r1")) =
      List.replicate (Spec.boundTo sampleMixed (sampleMsg "r1").RoomID).length "alice:r1:hi" :=
  have hwf : sampleMixed.conns.WF := by
    unfold GoMap.WF
    decide
  have hroom : (sampleMsg "r1").RoomID ≠ "" := by decide
  have h := C3_broadcast_writes sampleEnv sampleMixed (sampleMsg "r1") "alice:r1:hi"
    hwf hroom rfl
  ⟨hwf, hroom, h.1, h.2.2.2.1⟩

/-- C4. When a registered connection `c` has its `readLoop` process a valid message for room
A and then a valid message for a different room B, then afterwards `broadcast` writes to `c`
for every message to B (that `json.Marshal` encodes) and for no message to A. -/
theorem C4_rebind_moves_subscription (env : Env) (sys : Sys) (c : Conn) (userID : String)
    (m1 m2 msgA msgB : Message) (bB : String)
    (hreg : c ∈ sys.srv.conns.keys)
    (hv1 : m1.Content ≠ "" ∧ m1.UserID ≠ "" ∧ m1.RoomID ≠ "")
    (hv2 : m2.Content ≠ "" ∧ m2.UserID ≠ "" ∧ m2.RoomID ≠ "")
    (hne : m1.RoomID ≠ m2.RoomID)
    (hA : msgA.RoomID = m1.RoomID) (hB : msgB.RoomID = m2.RoomID)
    (hbB : env.jsonMarshal msgB = .ok bB) :
    c ∈ writeTargets
      (broadcast env (readLoop env sys c userID [.msg m1, .msg m2]).sys.srv msgB) ∧
    c ∉ writeTargets
      (broadcast env (readLoop env sys c userID [.msg m1, .msg m2]).sys.srv msgA) := by
  have hsrv : (readLoop env sys c userID [.msg m1, .msg m2]).sys.srv =
      bind (bind sys.srv c m1.RoomID) c m2.RoomID := by
    rw [readLoop_cons_reading env sys c userID _ _
      (readLoopIter_reading env sys c userID (.msg m1) (by simp)).1]
    rw [readLoop_cons_reading env _ c userID _ _
      (readLoopIter_reading env _ c userID (.msg m2) (by simp)).1]
    rw [readLoopIter_valid env sys c userID m1 hv1, readLoopIter_valid env _ c userID m2 hv2]
    rfl
  have hidx : (bind (bind sys.srv c m1.RoomID) c m2.RoomID).connRooms.index c "" =
      m2.RoomID := by
    simp [bind, GoMap.index, GoMap.entry_set_self]
  rw [hsrv]
  constructor
  · rw [mem_writeTargets_broadcast env _ msgB bB hbB]
    exact ⟨hreg, by rw [hidx, hB]⟩
  · intro hmem
    have h1 := (writeTargets_broadcast_sub env _ msgA c hmem).2
    rw [hidx, hA] at h1
    exact hne h1.symm

/-- Witness of C4: connection 1 sends to `r1`, then to `r2`. -/
theorem C4_rebind_moves_subscription_witness :
    1 ∈ sampleUnbound.conns.keys ∧
    1 ∈ writeTargets (broadcast sampleEnv (readLoop sampleEnv ⟨sampleUnbound, 0, 0⟩ 1 "alice"
      [.msg (sampleMsg "r1"), .msg (sampleMsg "r2")]).sys.srv (sampleMsg "r2")) ∧
    1 ∉ writeTargets (broadcast sampleEnv (readLoop sampleEnv ⟨sampleUnbound, 0, 0⟩ 1 "alice"
      [.msg (sampleMsg "r1"), .msg (sampleMsg "r2")]).sys.srv (sampleMsg "r1")) :=
  have hreg : 1 ∈ sampleUnbound.conns.keys := by decide
  have h := C4_rebind_moves_subscription sampleEnv ⟨sampleUnbound, 0, 0⟩ 1 "alice"
    (sampleMsg "r1") (sampleMsg "r2") (sampleMsg "r1") (sampleMsg "r2") "alice:r2:hi"
    hreg (by decide) (by decide) (by decide) rfl rfl rfl
  ⟨hreg, h.1, h.2⟩

/-- C5, as stated, fails, in two ways. With a clock that is set back between the two
readings, the two presence writes of a connection that connects and reaches the end of its
stream carry `t1 = 100` and `t2 = 99`. And on `sampleStreamMalformed`, whose second frame is
not JSON, the run makes the online presence write and no other, and is still reading, however
many times `Decode` is called: the decoder repeats its stored error and never reports the end
of the stream. -/
theorem C5_counterexample :
    (presenceCalls (runConnection sampleEnvClockBack ⟨New, 0, 0⟩ 7 "bob" [] 1).effects =
        [{ UserID := "bob", Online := true, LastSeen := 100 },
         { UserID := "bob", Online := false, LastSeen := 99 }] ∧
      ¬ ((100 : Int) ≤ 99)) ∧
    (∀ n : Nat,
      presenceCalls (runConnection sampleEnv ⟨New, 0, 0⟩ 7 "bob"
        sampleStreamMalformed n).effects =
          [{ UserID := "bob", Online := true, LastSeen := 0 }] ∧
      (runConnection sampleEnv ⟨New, 0, 0⟩ 7 "bob" sampleStreamMalformed n).state =
        .reading) := by
  refine ⟨⟨by decide, by decide⟩, ?_⟩
  intro n
  exact HandleWS_reading sampleEnv ⟨New, 0, 0⟩ 7 "bob" _
    (decodeOutcomes_malformed sampleStreamMalformed "syntax" (by decide) n)

/-- C5, amended. For a connection with identity `U` whose inbound frames are all complete
JSON values (valid messages, invalid messages, or values that do not unmarshal), followed by
the end of the stream: once `readLoop` has been given more `Decode` calls than there are
frames, the run of `HandleWS` and `readLoop` has called `presence.Set` exactly twice, first
with `(U, true, t1)` and then with `(U, false, t2)`, where `t1` is the clock reading taken at
connect and `t2` a later reading of the clock, so that `t1 ≤ t2` whenever the readings of the
clock do not decrease; the run has ended closed; and as long as `readLoop` has called
`Decode` at most once per frame, the run has made only the first of the two calls and is
still reading. -/
theorem C5_presence_writes (env : Env) (sys : Sys) (ws : Conn) (U : String)
    (frames : List Frame) (n : Nat)
    (hwell : ∀ e, Frame.malformed e ∉ frames) (hn : frames.length < n) :
    ∃ k : Nat, sys.clock < k ∧
      presenceCalls (runConnection env sys ws U frames n).effects =
        [{ UserID := U, Online := true, LastSeen := env.timeNowUnix sys.clock },
         { UserID := U, Online := false, LastSeen := env.timeNowUnix k }] ∧
      ((∀ i j : Nat, i ≤ j → env.timeNowUnix i ≤ env.timeNowUnix j) →
        env.timeNowUnix sys.clock ≤ env.timeNowUnix k) ∧
      (runConnection env sys ws U frames n).state = .closed ∧
      ∀ m : Nat, m ≤ frames.length →
        presenceCalls (runConnection env sys ws U frames m).effects =
          [{ UserID := U, Online := true, LastSeen := env.timeNowUnix sys.clock }] ∧
        (runConnection env sys ws U frames m).state = .reading := by
  obtain ⟨pre, rest, heq, hpre⟩ := decodeOutcomes_complete frames hwell n hn
  obtain ⟨k, hk, hp, hst⟩ := HandleWS_closed env sys ws U pre rest hpre
  refine ⟨k, hk, ?_, fun hclock => hclock _ _ (Nat.le_of_lt hk), ?_, ?_⟩
  · simp only [runConnection]
    rw [heq]
    exact hp
  · simp only [runConnection]
    rw [heq]
    exact hst
  · intro m hm
    exact HandleWS_reading env sys ws U _ (decodeOutcomes_short frames m hm)

/-- Witness of C5 (amended): identity `bob` on `sampleStream`, four frames, after five calls
of `Decode`. -/
theorem C5_presence_writes_witness :
    (∀ e, Frame.malformed e ∉ sampleStream) ∧ sampleStream.length < 5 ∧
    ∃ k : Nat, (0 : Nat) < k ∧
      presenceCalls (runConnection sampleEnv ⟨New, 0, 0⟩ 7 "bob" sampleStream 5).effects =
        [{ UserID := "bob", Online := true, LastSeen := sampleEnv.timeNowUnix 0 },
         { UserID := "bob", Online := false, LastSeen := sampleEnv.timeNowUnix k }] ∧
      (runConnection sampleEnv ⟨New, 0, 0⟩ 7 "bob" sampleStream 5).state = .closed :=
  have hwell : ∀ e, Frame.malformed e ∉ sampleStream := by
    intro e h
    simp [sampleStream] at h
  have hn : sampleStream.length < 5 := by decide
  have h := C5_presence_writes sampleEnv ⟨New, 0, 0⟩ 7 "bob" sampleStream 5 hwell hn
  ⟨hwell, hn, h.elim fun k hk => ⟨k, hk.1, hk.2.1, hk.2.2.2.1⟩⟩

/-- C6, as stated, fails: in `sampleMixed` connection 2 is registered and has no entry in
`connRooms`, yet `broadcast` of a message whose RoomID is `""` writes to it. -/
theorem C6_counterexample :
    2 ∈ sampleMixed.conns.keys ∧ sampleMixed.connRooms.entry 2 = none ∧
    2 ∈ writeTargets (broadcast sampleEnv sampleMixed (sampleMsg "")) := by
  decide

/-- C6, amended. For every registry, every connection that has no entry in `connRooms`, and
every message whose RoomID is not empty, `broadcast` does not write to that connection. -/
theorem C6_unbound_not_target (env : Env) (s : Server) (c : Conn) (msg : Message)
    (hunbound : s.connRooms.entry c = none) (hroom : msg.RoomID ≠ "") :
    c ∉ writeTargets (broadcast env s msg) := by
  intro hmem
  have h1 := (writeTargets_broadcast_sub env s msg c hmem).2
  rw [index_eq_iff_entry s.connRooms c msg.RoomID hroom, hunbound] at h1
  cases h1

/-- Witness of C6 (amended): connection 2 of `sampleMixed` and a message to `r1`. -/
theorem C6_unbound_not_target_witness :
    2 ∈ sampleMixed.conns.keys ∧ sampleMixed.connRooms.entry 2 = none ∧
    (sampleMsg "r1").RoomID ≠ "" ∧
    2 ∉ writeTargets (broadcast sampleEnv sampleMixed (sampleMsg "r1")) :=
  ⟨by decide, rfl, by decide,
    C6_unbound_not_target sampleEnv sampleMixed 2 (sampleMsg "r1") rfl (by decide)⟩

/-- C7. When the `Authorization` header does not start with `Bearer `, or the token after
that prefix is empty, or `ValidateToken` returns an error for that token, the handler of
`WebSocketHandler` answers 401 Unauthorized through `http.Error`, does not run `HandleWS`,
leaves the registry (and the counters) as they were and makes no call to the presence store
or to any other collaborator. -/
theorem C7_unauthorized_rejected (jwtParse : String → String → Parsed) (a : Auth) (env : Env)
    (sys : Sys) (r : Request)
    (h : HasPrefix r.Authorization "Bearer " = false ∨
      TrimPrefix r.Authorization "Bearer " = "" ∨
      (ValidateToken jwtParse a (TrimPrefix r.Authorization "Bearer ")).2 ≠ none) :
    (∃ body, (WebSocketHandler jwtParse a env sys r).response =
      .httpError body StatusUnauthorized) ∧
    (∀ run, (WebSocketHandler jwtParse a env sys r).response ≠ .handleWS run) ∧
    (WebSocketHandler jwtParse a env sys r).sys = sys ∧
    (WebSocketHandler jwtParse a env sys r).effects = [] := by
  have key : (WebSocketHandler jwtParse a env sys r =
        { response := .httpError "missing token" StatusUnauthorized, sys := sys,
          effects := [] }) ∨
      (WebSocketHandler jwtParse a env sys r =
        { response := .httpError "invalid token" StatusUnauthorized, sys := sys,
          effects := [] }) := by
    simp only [WebSocketHandler]
    by_cases hp : HasPrefix r.Authorization "Bearer " = true
    · rw [if_pos hp]
      by_cases ht : TrimPrefix r.Authorization "Bearer " = ""
      · rw [if_pos ht]
        exact Or.inl rfl
      · rw [if_neg ht]
        have hv : (ValidateToken jwtParse a (TrimPrefix r.Authorization "Bearer ")).2 ≠
            none := by
          rcases h with h | h | h
          · rw [hp] at h
            cases h
          · exact absurd h ht
          · exact h
        cases hres : (ValidateToken jwtParse a (TrimPrefix r.Authorization "Bearer ")).2 with
        | none => exact absurd hres hv
        | some e => exact Or.inr rfl
    · rw [if_neg hp]
      exact Or.inl rfl
  rcases key with key | key
  · rw [key]
    refine ⟨⟨_, rfl⟩, ?_, rfl, rfl⟩
    intro run hrun
    cases hrun
  · rw [key]
    refine ⟨⟨_, rfl⟩, ?_, rfl, rfl⟩
    intro run hrun
    cases hrun

/-- Witness of C7: a request whose token does not parse. -/
theorem C7_unauthorized_rejected_witness :
    (ValidateToken sampleParse sampleAuth
      (TrimPrefix (sampleRequest "Bearer junk").Authorization "Bearer ")).2 ≠ none ∧
    (∃ body, (WebSocketHandler sampleParse sampleAuth sampleEnv ⟨sampleMixed, 0, 0⟩
      (sampleRequest "Bearer junk")).response = .httpError body StatusUnauthorized) ∧
    (WebSocketHandler sampleParse sampleAuth sampleEnv ⟨sampleMixed, 0, 0⟩
      (sampleRequest "Bearer junk")).sys = ⟨sampleMixed, 0, 0⟩ :=
  have hv : (ValidateToken sampleParse sampleAuth
      (TrimPrefix (sampleRequest "Bearer junk").Authorization "Bearer ")).2 ≠ none := by
    decide
  have h := C7_unauthorized_rejected sampleParse sampleAuth sampleEnv ⟨sampleMixed, 0, 0⟩
    (sampleRequest "Bearer junk") (Or.inr (Or.inr hv))
  ⟨hv, h.1, h.2.2.1⟩

/-- C8, on the code: a token that `jwt.Parse` accepts as valid and whose claims carry no
`sub`, or a `sub` that is not a string, makes `ValidateToken` return the empty identity with a
nil error, and `WebSocketHandler` then runs `HandleWS` for the request. -/
theorem C8_validateToken_nil_error_without_sub :
    ValidateToken sampleParse sampleAuth "tok-nosub" = ("", none) ∧
    ValidateToken sampleParse sampleAuth "tok-numsub" = ("", none) ∧
    (WebSocketHandler sampleParse sampleAuth sampleEnv ⟨New, 0, 0⟩
      (sampleRequest "Bearer tok-nosub")).response =
        .handleWS (HandleWS sampleEnv ⟨New, 0, 0⟩ 9 "alice" [.eof]) := by
  decide

/-- C9. One iteration of `readLoop` on a decoded message with non-empty Content, UserID and
RoomID calls `store.Save` once, with the message carrying the identifier and timestamp drawn by
the server; its effects are that call followed by those of `broadcast` of the same message on
the registry in which `connRooms[ws]` is already the RoomID of the message; `conns` is as
before; the loop stays in the reading state; and the whole outcome is the same whatever
`store.Save` returns. -/
theorem C9_valid_message_processed (env : Env) (sys : Sys) (ws : Conn) (userID : String)
    (m : Message) (h : m.Content ≠ "" ∧ m.UserID ≠ "" ∧ m.RoomID ≠ "") :
    (readLoopIter env sys ws userID (.msg m)).effects =
      Effect.save { m with ID := env.uuidNewString sys.uuids,
                           Timestamp := env.timeNowUnix sys.clock } ::
      broadcast env (bind sys.srv ws m.RoomID)
        { m with ID := env.uuidNewString sys.uuids,
                 Timestamp := env.timeNowUnix sys.clock } ∧
    saveCalls (readLoopIter env sys ws userID (.msg m)).effects =
      [{ m with ID := env.uuidNewString sys.uuids,
                Timestamp := env.timeNowUnix sys.clock }] ∧
    broadcastCalls (readLoopIter env sys ws userID (.msg m)).effects =
      [{ m with ID := env.uuidNewString sys.uuids,
                Timestamp := env.timeNowUnix sys.clock }] ∧
    (readLoopIter env sys ws userID (.msg m)).sys.srv = bind sys.srv ws m.RoomID ∧
    (readLoopIter env sys ws userID (.msg m)).sys.srv.connRooms.entry ws = some m.RoomID ∧
    (readLoopIter env sys ws userID (.msg m)).sys.srv.conns = sys.srv.conns ∧
    (readLoopIter env sys ws userID (.msg m)).state = .reading ∧
    ∀ save1 : Message → Option String,
      readLoopIter { env with storeSave := save1 } sys ws userID (.msg m) =
        readLoopIter env sys ws userID (.msg m) := by
  refine ⟨?_, ?_, ?_, ?_, ?_, ?_, ?_, ?_⟩
  · rw [readLoopIter_valid env sys ws userID m h]
  · rw [readLoopIter_valid env sys ws userID m h]
    simp [saveCalls, (saveCalls_broadcast env _ _).1]
  · rw [readLoopIter_valid env sys ws userID m h]
    simp [broadcastCalls, (saveCalls_broadcast env _ _).2]
  · rw [readLoopIter_valid env sys ws userID m h]
  · rw [readLoopIter_valid env sys ws userID m h]
    simp [bind, GoMap.entry_set_self]
  · rw [readLoopIter_valid env sys ws userID m h]
    rfl
  · rw [readLoopIter_valid env sys ws userID m h]
  · intro save1
    rw [readLoopIter_valid env sys ws userID m h, readLoopIter_valid _ sys ws userID m h,
      broadcast_storeSave]

/-- Witness of C9: connection 2 of `sampleMixed` sends a valid message to `r1`; it is saved
once and written to connections 1 and 2. -/
theorem C9_valid_message_processed_witness :
    ((sampleMsg "r1").Content ≠ "" ∧ (sampleMsg "r1").UserID ≠ "" ∧
      (sampleMsg "r1").RoomID ≠ "") ∧
    saveCalls (readLoopIter sampleEnv ⟨sampleMixed, 0, 0⟩ 2 "alice"
      (.msg (sampleMsg "r1"))).effects =
        [{ sampleMsg "r1" with ID := sampleEnv.uuidNewString 0,
                               Timestamp := sampleEnv.timeNowUnix 0 }] ∧
    (readLoopIter sampleEnv ⟨sampleMixed, 0, 0⟩ 2 "alice"
      (.msg (sampleMsg "r1"))).state = .reading :=
  have hv : (sampleMsg "r1").Content ≠ "" ∧ (sampleMsg "r1").UserID ≠ "" ∧
      (sampleMsg "r1").RoomID ≠ "" := by decide
  have h := C9_valid_message_processed sampleEnv ⟨sampleMixed, 0, 0⟩ 2 "alice"
    (sampleMsg "r1") hv
  ⟨hv, h.2.1, h.2.2.2.2.2.2.1⟩

/-- C10. After `removeConn(c)`, `c` is a key of neither `conns` nor `connRooms`, the entry of
every other connection in each of the two maps is what it was, and when `c` was a key of
neither map beforehand the registry is unchanged. -/
theorem C10_removeConn_frame (s : Server) (c : Conn) :
    c ∉ (removeConn s c).conns.keys ∧
    c ∉ (removeConn s c).connRooms.keys ∧
    (∀ c1, c1 ≠ c →
      (removeConn s c).conns.entry c1 = s.conns.entry c1 ∧
      (removeConn s c).connRooms.entry c1 = s.connRooms.entry c1 ∧
      (c1 ∈ (removeConn s c).conns.keys ↔ c1 ∈ s.conns.keys) ∧
      (c1 ∈ (removeConn s c).connRooms.keys ↔ c1 ∈ s.connRooms.keys)) ∧
    (c ∉ s.conns.keys → c ∉ s.connRooms.keys → removeConn s c = s) := by
  refine ⟨?_, ?_, ?_, ?_⟩
  · simp only [removeConn]
    rw [GoMap.mem_keys_delete]
    exact fun h => h.2 rfl
  · simp only [removeConn]
    rw [GoMap.mem_keys_delete]
    exact fun h => h.2 rfl
  · intro c1 hne
    simp only [removeConn]
    rw [GoMap.entry_delete_ne _ _ _ hne, GoMap.entry_delete_ne _ _ _ hne,
      GoMap.mem_keys_delete, GoMap.mem_keys_delete]
    exact ⟨rfl, rfl, ⟨fun h1 => h1.1, fun h1 => ⟨h1, hne⟩⟩,
      ⟨fun h1 => h1.1, fun h1 => ⟨h1, hne⟩⟩⟩
  · intro h1 h2
    simp only [removeConn]
    rw [GoMap.delete_of_not_mem _ _ h1, GoMap.delete_of_not_mem _ _ h2]

/-- Witness of C10: removing connection 1 from `sampleMixed` keeps connection 2, and removing
the absent connection 5 changes nothing. -/
theorem C10_removeConn_frame_witness :
    (2 ≠ 1 ∧ (removeConn sampleMixed 1).conns.entry 2 = sampleMixed.conns.entry 2) ∧
    (5 ∉ sampleMixed.conns.keys ∧ 5 ∉ sampleMixed.connRooms.keys ∧
      removeConn sampleMixed 5 = sampleMixed) :=
  have h2 : (2 : Conn) ≠ 1 := by decide
  have h5 : 5 ∉ sampleMixed.conns.keys := by decide
  have h5r : 5 ∉ sampleMixed.connRooms.keys := by decide
  ⟨⟨h2, ((C10_removeConn_frame sampleMixed 1).2.2.1 2 h2).1⟩,
    h5, h5r, (C10_removeConn_frame sampleMixed 5).2.2.2 h5 h5r⟩

/-! ## Lemmas on interleaved runs -/

theorem act_keeps_registered (env : Env) (sys : Sys) (c : Conn) (a : Action)
    (hreg : c ∈ sys.srv.conns.keys) (ha : ∀ u, a ≠ Action.frame c u .eof) :
    c ∈ (act env sys a).sys.srv.conns.keys := by
  cases a with
  | connect ws userID =>
    simp only [act, HandleWS, readLoop, register]
    rw [GoMap.mem_keys_set]
    exact Or.inr hreg
  | frame ws userID d =>
    simp only [act]
    cases d with
    | eof =>
      have hne : c ≠ ws := fun h => ha userID (by rw [h])
      simp only [readLoopIter, removeConn]
      rw [GoMap.mem_keys_delete]
      exact ⟨hreg, hne⟩
    | err e => exact hreg
    | msg m =>
      by_cases hm : m.Content = "" ∨ m.UserID = "" ∨ m.RoomID = ""
      · rw [readLoopIter_invalid env sys ws userID m hm]
        exact hreg
      · have h1 : m.Content ≠ "" ∧ m.UserID ≠ "" ∧ m.RoomID ≠ "" :=
          ⟨fun h2 => hm (Or.inl h2), fun h2 => hm (Or.inr (Or.inl h2)),
           fun h2 => hm (Or.inr (Or.inr h2))⟩
        rw [readLoopIter_valid env sys ws userID m h1]
        exact hreg

theorem runActions_keeps_registered (env : Env) (c : Conn) (actions : List Action) (sys : Sys)
    (hreg : c ∈ sys.srv.conns.keys) (ha : ∀ u, Action.frame c u .eof ∉ actions) :
    c ∈ (runActions env sys actions).srv.conns.keys := by
  induction actions generalizing sys with
  | nil => exact hreg
  | cons a rest ih =>
    simp only [runActions]
    apply ih
    · exact act_keeps_registered env sys c a hreg
        (fun u h => ha u (by rw [h]; exact List.mem_cons_self _ _))
    · exact fun u h => ha u (List.mem_cons_of_mem _ h)

/-- C11. A registered connection `c` stays in `conns` through every sequence of steps of any
connections (connects, and `readLoop` iterations on a non-EOF decode error, an invalid
message, a valid message with its broadcast, whatever the results of the writes, or another
connection's end of stream) that does not contain the end of stream of `c` itself, and through
each such single `readLoop` iteration; on its own end of stream `c` is removed from `conns`
and `connRooms`, the offline presence write is the one effect, and the loop has exited without
reading further frames. -/
theorem C11_removed_only_on_own_eof (env : Env) (sys : Sys) (c : Conn)
    (hreg : c ∈ sys.srv.conns.keys) :
    (∀ actions : List Action, (∀ u, Action.frame c u .eof ∉ actions) →
      c ∈ (runActions env sys actions).srv.conns.keys) ∧
    (∀ (ws : Conn) (u : String) (d : Decoded), ws ≠ c ∨ d ≠ .eof →
      c ∈ (readLoopIter env sys ws u d).sys.srv.conns.keys) ∧
    (∀ (u : String) (rest : List Decoded),
      c ∉ (readLoop env sys c u (.eof :: rest)).sys.srv.conns.keys ∧
      c ∉ (readLoop env sys c u (.eof :: rest)).sys.srv.connRooms.keys ∧
      (readLoop env sys c u (.eof :: rest)).effects =
        [Effect.presenceSet
          { UserID := u, Online := false, LastSeen := env.timeNowUnix sys.clock }] ∧
      (readLoop env sys c u (.eof :: rest)).state = .closed) := by
  refine ⟨?_, ?_, ?_⟩
  · intro actions ha
    exact runActions_keeps_registered env c actions sys hreg ha
  · intro ws u d hd
    refine act_keeps_registered env sys c (Action.frame ws u d) hreg ?_
    intro u1 h
    injection h with h1 h2 h3
    rcases hd with hd | hd
    · exact hd h1
    · exact hd h3
  · intro u rest
    rw [readLoop_eof]
    refine ⟨?_, ?_, rfl, rfl⟩
    · simp only [readLoopIter, removeConn]
      rw [GoMap.mem_keys_delete]
      exact fun h => h.2 rfl
    · simp only [readLoopIter, removeConn]
      rw [GoMap.mem_keys_delete]
      exact fun h => h.2 rfl

/-- Witness of C11: connection 1 of `sampleUnbound` stays registered through `sampleActions`
in an environment where every write fails (one of them a write to connection 1), and is
removed at its own end of stream. -/
theorem C11_removed_only_on_own_eof_witness :
    1 ∈ sampleUnbound.conns.keys ∧
    (∀ u, Action.frame 1 u .eof ∉ sampleActions) ∧
    Effect.write 1 "alice:r1:hi" ∈
      actionEffects sampleEnvWriteFails ⟨sampleUnbound, 0, 0⟩ sampleActions ∧
    1 ∈ (runActions sampleEnvWriteFails ⟨sampleUnbound, 0, 0⟩
      sampleActions).srv.conns.keys ∧
    1 ∉ (readLoop sampleEnvWriteFails ⟨sampleUnbound, 0, 0⟩ 1 "alice"
      [.eof, .msg (sampleMsg "r1")]).sys.srv.conns.keys :=
  have hreg : 1 ∈ sampleUnbound.conns.keys := by decide
  have ha : ∀ u, Action.frame 1 u .eof ∉ sampleActions := by
    intro u h
    simp [sampleActions] at h
  have h := C11_removed_only_on_own_eof sampleEnvWriteFails ⟨sampleUnbound, 0, 0⟩ 1 hreg
  ⟨hreg, ha, by decide, h.1 sampleActions ha, (h.2.2 "alice" [.msg (sampleMsg "r1")]).1⟩

/-- C12. For a room whose stored members string is `s`, and a `userID` that is not empty and
contains no comma: `AddMember` returns a nil error; a second `AddMember` with the same
arguments returns a nil error and leaves the table, hence the stored members string, as the
first one left it; and the list decoded by `Get` after `AddMember` contains `userID`, as many
times as the list decoded from `s` when `userID` was in that list, and exactly once
otherwise. -/
theorem C12_addMember_idempotent (db : List RoomRow) (roomID userID s : String)
    (hrow : SQLiteRoomStore.storedMembers db roomID = some s)
    (hne : userID ≠ "") (hcomma : ',' ∉ userID.data) :
    (SQLiteRoomStore.AddMember db roomID userID).2 = none ∧
    SQLiteRoomStore.AddMember (SQLiteRoomStore.AddMember db roomID userID).1 roomID userID =
      ((SQLiteRoomStore.AddMember db roomID userID).1, none) ∧
    SQLiteRoomStore.storedMembers
      (SQLiteRoomStore.AddMember (SQLiteRoomStore.AddMember db roomID userID).1
        roomID userID).1 roomID =
      SQLiteRoomStore.storedMembers (SQLiteRoomStore.AddMember db roomID userID).1 roomID ∧
    ∃ r0 r1 : Room,
      SQLiteRoomStore.Get db roomID = .ok r0 ∧
      r0.Members = (if s ≠ "" then Split s ',' else []) ∧
      SQLiteRoomStore.Get (SQLiteRoomStore.AddMember db roomID userID).1 roomID = .ok r1 ∧
      userID ∈ r1.Members ∧
      (userID ∈ r0.Members → r1.Members.count userID = r0.Members.count userID) ∧
      (userID ∉ r0.Members → r1.Members.count userID = 1) := by
  cases hq : SQLiteRoomStore.queryRow db roomID with
  | none => simp [SQLiteRoomStore.storedMembers, hq] at hrow
  | some row =>
    have hs : row.members = s := by
      simpa [SQLiteRoomStore.storedMembers, hq] using hrow
    have hget := SQLiteRoomStore.Get_of_queryRow db roomID row hq
    rw [hs] at hget
    by_cases hin : userID ∈ (if s ≠ "" then Split s ',' else [])
    · have hadd : SQLiteRoomStore.AddMember db roomID userID = (db, none) := by
        simp only [SQLiteRoomStore.AddMember, hget]
        rw [if_pos hin]
      rw [hadd]
      exact ⟨rfl, hadd, by rw [hadd], _, _, hget, rfl, hget, hin, fun _ => rfl,
        fun h => absurd hin h⟩
    · have hdec := SQLiteRoomStore.decode_Join_append s userID hne hcomma
      have hq1 := SQLiteRoomStore.queryRow_updateMembers db roomID
        (Join ((if s ≠ "" then Split s ',' else []) ++ [userID]) ",") row hq
      have hget1 := SQLiteRoomStore.Get_of_queryRow _ roomID _ hq1
      simp only [if_pos hdec.1, hdec.2] at hget1
      have hadd : SQLiteRoomStore.AddMember db roomID userID =
          (SQLiteRoomStore.updateMembers db
            (Join ((if s ≠ "" then Split s ',' else []) ++ [userID]) ",") roomID, none) := by
        simp only [SQLiteRoomStore.AddMember, hget]
        rw [if_neg hin]
      have hadd1 : SQLiteRoomStore.AddMember (SQLiteRoomStore.updateMembers db
            (Join ((if s ≠ "" then Split s ',' else []) ++ [userID]) ",") roomID)
            roomID userID =
          (SQLiteRoomStore.updateMembers db
            (Join ((if s ≠ "" then Split s ',' else []) ++ [userID]) ",") roomID, none) := by
        simp only [SQLiteRoomStore.AddMember, hget1]
        rw [if_pos (List.mem_append_right _ (List.mem_singleton_self userID))]
      rw [hadd]
      refine ⟨rfl, hadd1, by rw [hadd1], _, _, hget, rfl, hget1,
        List.mem_append_right _ (List.mem_singleton_self userID), ?_, ?_⟩
      · intro h
        exact absurd h hin
      · intro _
        show List.count userID ((if s ≠ "" then Split s ',' else []) ++ [userID]) = 1
        rw [List.count_append, List.count_eq_zero_of_not_mem hin]
        simp

/-- Witness of C12: `carol` joins room `r1` of `sampleRooms`, whose members string is
`alice,bob`; the string becomes `alice,bob,carol` and a second join leaves it so. -/
theorem C12_addMember_idempotent_witness :
    SQLiteRoomStore.storedMembers sampleRooms "r1" = some "alice,bob" ∧
    "carol" ≠ "" ∧ ',' ∉ "carol".data ∧
    (SQLiteRoomStore.AddMember sampleRooms "r1" "carol").2 = none ∧
    SQLiteRoomStore.AddMember (SQLiteRoomStore.AddMember sampleRooms "r1" "carol").1
        "r1" "carol" =
      ((SQLiteRoomStore.AddMember sampleRooms "r1" "carol").1, none) ∧
    SQLiteRoomStore.storedMembers (SQLiteRoomStore.AddMember sampleRooms "r1" "carol").1 "r1" =
      some "alice,bob,carol" :=
  have hrow : SQLiteRoomStore.storedMembers sampleRooms "r1" = some "alice,bob" := by decide
  have hne : "carol" ≠ "" := by decide
  have hcomma : ',' ∉ "carol".data := by decide
  have h := C12_addMember_idempotent sampleRooms "r1" "carol" "alice,bob" hrow hne hcomma
  ⟨hrow, hne, hcomma, h.1, h.2.1, by decide⟩

end WsServer
